import Mathlib

/-!
# Verification of the IGSCadetOpenMap geospatial subsystem

Shallow embedding of the coordinate-math, grid-reference, route-share-codec
and location-code (geohash) components of the repository, together with
theorems settling the specification claims about them.

Modelling conventions:

* JavaScript numbers are modelled as exact rationals (`ℚ`) in the codec and
  grid-digit code, where only field operations, comparisons and rounding
  occur, and as real numbers (`ℝ`) in the trigonometric coordinate math.
  Non-finite values (`NaN`, `±Infinity`) are modelled explicitly where the
  code can produce or receive them.
* JavaScript strings are modelled as `List Char`; "binary strings" (strings
  whose code units are bytes, as produced by `atob`) are modelled as
  `List Nat` of their character codes, so `bytesToBinaryString` /
  `binaryStringToBytes` are identities between `Uint8Array` contents and the
  model.
* `Math.round x` is `⌊x + 1/2⌋` (round half toward positive infinity).
* Thrown exceptions are modelled with `Except`; `try`/`catch` blocks become
  `match` on the error case.  Functions that JavaScript callers observe as
  "never throwing" therefore return `Option`.
-/

namespace CadetMap

/-- JavaScript `Math.round` on an exact rational: round half up. -/
def jsRound (q : ℚ) : ℤ := ⌊q + 1 / 2⌋

/-- A JavaScript number in the exact-rational model: either a finite value
or one of the non-finite values `NaN`, `Infinity`, `-Infinity`. -/
inductive QNum where
  | num (q : ℚ)
  | nan
  | inf
  | ninf
deriving DecidableEq, Repr

/-- `Number.isFinite` on the rational number model. -/
def QNum.isFiniteNumber : QNum → Bool
  | .num _ => true
  | _ => false

/-- A JavaScript value, covering everything the route-share codec can
receive: `undefined`, `null`, booleans, (finite) numbers, strings, arrays
and plain objects.  JSON values are a subset (no `undefined`). -/
inductive JVal where
  | jsUndefined
  | null
  | bool (b : Bool)
  | num (q : ℚ)
  | str (s : List Char)
  | arr (xs : List JVal)
  | obj (fields : List (List Char × JVal))
deriving Repr

/-- JavaScript whitespace characters recognised by `String.prototype.trim`
and by `Number(string)` (ASCII whitespace plus no-break space). -/
def jsWsChar (c : Char) : Bool :=
  c = ' ' ∨ c = '\t' ∨ c = '\n' ∨ c = '\r' ∨ c = '\x0b' ∨ c = '\x0c' ∨ c = '\xa0'

/-- JavaScript `String.prototype.trim` on the character-list model. -/
def jsTrim (s : List Char) : List Char :=
  ((s.dropWhile jsWsChar).reverse.dropWhile jsWsChar).reverse

/-- Numeric value of a list of decimal digit characters. -/
def natOfDigits (s : List Char) : ℕ :=
  s.foldl (fun acc c => acc * 10 + (c.toNat - '0'.toNat)) 0

/-- Numeric value of a list of digits in base `b` (hex digits case-insensitive). -/
def natOfBaseDigits (b : ℕ) (s : List Char) : ℕ :=
  s.foldl (fun acc c =>
    acc * b + (if c.toNat ≥ 'a'.toNat then c.toNat - 'a'.toNat + 10
               else if c.toNat ≥ 'A'.toNat then c.toNat - 'A'.toNat + 10
               else c.toNat - '0'.toNat)) 0

def isHexDigit (c : Char) : Bool :=
  c.isDigit ∨ ('a' ≤ c ∧ c ≤ 'f') ∨ ('A' ≤ c ∧ c ≤ 'F')

def isOctDigit (c : Char) : Bool := '0' ≤ c ∧ c ≤ '7'

def isBinDigit (c : Char) : Bool := c = '0' ∨ c = '1'

/-- Parse the decimal-literal part of `Number(string)` (no sign):
`digits [. digits] [exponent]` or `. digits [exponent]`.  Returns `none`
when the text is not a valid decimal literal. -/
def parseDecimalLiteral (s : List Char) : Option ℚ :=
  let intPart := s.takeWhile Char.isDigit
  let rest := s.dropWhile Char.isDigit
  let withFrac : Option (ℚ × List Char) :=
    match rest with
    | '.' :: r =>
      let fracPart := r.takeWhile Char.isDigit
      let r2 := r.dropWhile Char.isDigit
      if intPart.isEmpty ∧ fracPart.isEmpty then none
      else some ((natOfDigits intPart : ℚ) +
        (natOfDigits fracPart : ℚ) / ((10 : ℚ) ^ fracPart.length), r2)
    | _ =>
      if intPart.isEmpty then none
      else some ((natOfDigits intPart : ℚ), rest)
  match withFrac with
  | none => none
  | some (mantissa, r2) =>
    match r2 with
    | [] => some mantissa
    | e :: r3 =>
      if e = 'e' ∨ e = 'E' then
        let (sign, digits) : ℚ × List Char :=
          match r3 with
          | '+' :: r4 => (1, r4)
          | '-' :: r4 => (-1, r4)
          | _ => (1, r3)
        if digits.isEmpty ∨ ¬ digits.all Char.isDigit then none
        else some (mantissa * (10 : ℚ) ^ (sign.num * natOfDigits digits : ℤ))
      else none

/-- The unsigned part of `Number(string)`: `Infinity`, or a decimal literal. -/
def parseUnsignedNumber (s : List Char) : QNum :=
  if s = "Infinity".toList then .inf
  else match parseDecimalLiteral s with
    | some q => .num q
    | none => .nan

/-- JavaScript `Number(string)` (string-to-number coercion). -/
def jsStringToNumber (s : List Char) : QNum :=
  let t := jsTrim s
  match t with
  | [] => .num 0
  | '+' :: r => parseUnsignedNumber r
  | '-' :: r =>
    match parseUnsignedNumber r with
    | .num q => .num (-q)
    | .inf => .ninf
    | _ => .nan
  | '0' :: x :: r =>
    if x = 'x' ∨ x = 'X' then
      if r ≠ [] ∧ r.all isHexDigit then .num (natOfBaseDigits 16 r) else .nan
    else if x = 'o' ∨ x = 'O' then
      if r ≠ [] ∧ r.all isOctDigit then .num (natOfBaseDigits 8 r) else .nan
    else if x = 'b' ∨ x = 'B' then
      if r ≠ [] ∧ r.all isBinDigit then .num (natOfBaseDigits 2 r) else .nan
    else parseUnsignedNumber t
  | _ => parseUnsignedNumber t

/-- JavaScript `Number(value)` (ToNumber) on the modelled value space.
Arrays convert through their string form: `[]` is `""` (hence `0`), a
one-element array converts like its element (with `null`/`undefined`
becoming the empty string), longer arrays contain a comma and are `NaN`. -/
def jsToNumber : JVal → QNum
  | .jsUndefined => .nan
  | .null => .num 0
  | .bool b => .num (if b then 1 else 0)
  | .num q => .num q
  | .str s => jsStringToNumber s
  | .obj _ => .nan
  | .arr [] => .num 0
  | .arr [x] =>
    match x with
    | .jsUndefined => .num 0
    | .null => .num 0
    | .num q => .num q
    | .str s => jsStringToNumber s
    | .arr xs => jsToNumber (.arr xs)
    | _ => .nan
  | .arr (_ :: _ :: _) => .nan

/-- Property access `value.field` (JavaScript): objects look fields up with
last-assignment-wins; every other value yields `undefined` for the
properties used by this code. -/
def JVal.getField (v : JVal) (name : List Char) : JVal :=
  match v with
  | .obj fields =>
    match (fields.reverse.find? (fun kv => kv.1 = name)) with
    | some kv => kv.2
    | none => .jsUndefined
  | _ => .jsUndefined

/-- JavaScript truthiness of the modelled values. -/
def JVal.truthy : JVal → Bool
  | .jsUndefined => false
  | .null => false
  | .bool b => b
  | .num q => q ≠ 0
  | .str s => s ≠ []
  | .arr _ => true
  | .obj _ => true

/-- `typeof v === 'object'` (note `typeof null` is `'object'` but `null` is
excluded separately by truthiness wherever the code uses it). -/
def JVal.isObjectType : JVal → Bool
  | .null => true
  | .arr _ => true
  | .obj _ => true
  | _ => false

end CadetMap

namespace CadetMap.RouteUtils

/-- `src/utils/routeUtils.js` — a validated position. -/
structure Position where
  lat : ℚ
  lng : ℚ
deriving DecidableEq, Repr

/-- `clampPrecision` (routeUtils.js line 71): round to 1e-6 degrees. -/
def clampPrecision (q : ℚ) : ℚ := (jsRound (q * 1000000) : ℚ) / 1000000

/-- `normalisePosition` (routeUtils.js lines 74-84): validate an arbitrary
value as a position; coordinates must convert to finite numbers inside
`[-90,90] × [-180,180]`, and are rounded to 1e-6 degrees. -/
def normalisePosition (candidate : JVal) : Option Position :=
  if ¬ candidate.truthy ∨ ¬ candidate.isObjectType then none
  else
    match jsToNumber (candidate.getField "lat".toList),
          jsToNumber (candidate.getField "lng".toList) with
    | .num lat, .num lng =>
      if lat < -90 ∨ lat > 90 ∨ lng < -180 ∨ lng > 180 then none
      else some ⟨clampPrecision lat, clampPrecision lng⟩
    | _, _ => none

end CadetMap.RouteUtils

namespace CadetMap.Base64

/-- The standard base64 alphabet used by `btoa`/`atob`. -/
def alphabet : List Char :=
  "ABCDEFGHIJKLMNOPQRSTUVWXYZabcdefghijklmnopqrstuvwxyz0123456789+/".toList

/-- Character for a 6-bit value. -/
def charOf (v : ℕ) : Char := alphabet.getD v 'A'

/-- Index of a character in the base64 alphabet. -/
def indexOf (c : Char) : Option ℕ := alphabet.findIdx? (fun x => x = c)

/-- ASCII whitespace stripped by forgiving-base64 (`atob`). -/
def asciiWs (c : Char) : Bool :=
  c = ' ' ∨ c = '\t' ∨ c = '\n' ∨ c = '\x0c' ∨ c = '\r'

/-- `btoa`: encode a binary string (list of byte values) in groups of three
bytes into four base64 characters, padding with `=`. -/
def encodeGroups : List ℕ → List Char
  | [] => []
  | [a] => [charOf (a / 4), charOf (a % 4 * 16), '=', '=']
  | [a, b] => [charOf (a / 4), charOf (a % 4 * 16 + b / 16), charOf (b % 16 * 4), '=']
  | a :: b :: d :: rest =>
    charOf (a / 4) :: charOf (a % 4 * 16 + b / 16) ::
    charOf (b % 16 * 4 + d / 64) :: charOf (d % 64) :: encodeGroups rest

/-- `base64Encode` (routeUtils.js lines 23-31) composed with
`bytesToBinaryString` (lines 43-49): binary strings are byte lists in the
model, so the conversion itself is the identity. -/
def base64Encode (binary : List ℕ) : List Char := encodeGroups binary

/-- Decode 6-bit values in groups of four into three bytes; a trailing
group of two or three values yields one or two bytes, surplus bits are
discarded (forgiving-base64). -/
def decodeGroups : List ℕ → List ℕ
  | [] => []
  | [_] => []
  | [i0, i1] => [i0 * 4 + i1 / 16]
  | [i0, i1, i2] => [i0 * 4 + i1 / 16, i1 % 16 * 16 + i2 / 4]
  | i0 :: i1 :: i2 :: i3 :: rest =>
    (i0 * 4 + i1 / 16) :: (i1 % 16 * 16 + i2 / 4) :: (i2 % 4 * 64 + i3) :: decodeGroups rest

/-- Remove up to two trailing `=` characters (forgiving-base64). -/
def dropTrailingEq (l : List Char) : List Char :=
  let l1 := if l.getLast? = some '=' then l.dropLast else l
  if l1.getLast? = some '=' then l1.dropLast else l1

/-- `atob` (forgiving-base64, WHATWG): strip ASCII whitespace, strip up to
two trailing `=` when the length is a multiple of four, reject a remainder
of one or any character outside the alphabet, then decode.  A failure is
the thrown `InvalidCharacterError`, modelled as `none`. -/
def base64Decode (s : List Char) : Option (List ℕ) :=
  let data := s.filter (fun c => ¬ asciiWs c)
  let data := if data.length % 4 = 0 then dropTrailingEq data else data
  if data.length % 4 = 1 then none
  else
    match data.mapM indexOf with
    | none => none
    | some idx => some (decodeGroups idx)

/-- Strip every trailing `=` (the `replace(/=+$/g, '')` in `toBase64Url`). -/
def stripTrailingEquals (l : List Char) : List Char :=
  (l.reverse.dropWhile (fun c => c = '=')).reverse

/-- `toBase64Url` (routeUtils.js lines 59-62). -/
def toBase64Url (bytes : List ℕ) : List Char :=
  stripTrailingEquals ((base64Encode bytes).map
    (fun c => if c = '+' then '-' else if c = '/' then '_' else c))

/-- `fromBase64Url` (routeUtils.js lines 64-69) composed with
`binaryStringToBytes` (identity in the model). -/
def fromBase64Url (code : List Char) : Option (List ℕ) :=
  let normalised := code.map (fun c => if c = '-' then '+' else if c = '_' then '/' else c)
  let padding : List Char :=
    if normalised.length % 4 = 0 then [] else List.replicate (4 - normalised.length % 4) '='
  base64Decode (normalised ++ padding)

end CadetMap.Base64

namespace CadetMap.Json

/-!
`JSON.parse`, operating on a binary string (list of character codes) as
produced by `atob`.  A thrown `SyntaxError` is modelled as `none`.
Recursion is fuelled by the input length plus one, which bounds the
nesting depth the parser will follow.
-/

/-- JSON whitespace codes: space, tab, line feed, carriage return. -/
def jsonWs (c : ℕ) : Bool := c = 32 ∨ c = 9 ∨ c = 10 ∨ c = 13

def skipWs (s : List ℕ) : List ℕ := s.dropWhile jsonWs

def isDigitCode (c : ℕ) : Bool := 48 ≤ c ∧ c ≤ 57

def natOfDigitCodes (s : List ℕ) : ℕ := s.foldl (fun acc c => acc * 10 + (c - 48)) 0

/-- Parse the body of a JSON number starting at a digit (after the optional
minus sign): `(0 | [1-9][0-9]*) (. [0-9]+)? ([eE] [+-]? [0-9]+)?`. -/
def parseNumBody (s : List ℕ) : Option (ℚ × List ℕ) :=
  let intDigits := s.takeWhile isDigitCode
  let rest := s.dropWhile isDigitCode
  if intDigits.isEmpty then none
  else if intDigits.length > 1 ∧ intDigits.headI = 48 then none
  else
    let (mantissa, rest2) : ℚ × List ℕ :=
      match rest with
      | 46 :: r =>
        let fracDigits := r.takeWhile isDigitCode
        ((natOfDigitCodes intDigits : ℚ) +
          (natOfDigitCodes fracDigits : ℚ) / (10 : ℚ) ^ fracDigits.length,
         r.dropWhile isDigitCode)
      | _ => ((natOfDigitCodes intDigits : ℚ), rest)
    -- a '.' must be followed by at least one digit
    if (match rest with
        | 46 :: r => (r.takeWhile isDigitCode).isEmpty
        | _ => false) then none
    else
      match rest2 with
      | c :: r =>
        if c = 101 ∨ c = 69 then
          let (sgn, digits) : ℤ × List ℕ :=
            match r with
            | 43 :: r2 => (1, r2)
            | 45 :: r2 => (-1, r2)
            | _ => (1, r)
          let expDigits := digits.takeWhile isDigitCode
          if expDigits.isEmpty then none
          else some (mantissa * (10 : ℚ) ^ (sgn * natOfDigitCodes expDigits),
                     digits.dropWhile isDigitCode)
        else some (mantissa, rest2)
      | [] => some (mantissa, [])

def hexVal (c : ℕ) : Option ℕ :=
  if 48 ≤ c ∧ c ≤ 57 then some (c - 48)
  else if 97 ≤ c ∧ c ≤ 102 then some (c - 97 + 10)
  else if 65 ≤ c ∧ c ≤ 70 then some (c - 65 + 10)
  else none

/-- Simple escape characters after a backslash. -/
def escChar (e : ℕ) : Option Char :=
  if e = 34 then some '"'
  else if e = 92 then some '\\'
  else if e = 47 then some '/'
  else if e = 98 then some '\x08'
  else if e = 102 then some '\x0c'
  else if e = 110 then some '\n'
  else if e = 114 then some '\r'
  else if e = 116 then some '\t'
  else none

/-- Parse the remainder of a JSON string after the opening quote; returns
the decoded characters and the input after the closing quote. -/
def parseStringRest : List ℕ → Option (List Char × List ℕ)
  | [] => none
  | 34 :: r => some ([], r)
  | 92 :: e :: r2 =>
    if e = 117 then
      match r2 with
      | h1 :: h2 :: h3 :: h4 :: r3 =>
        match hexVal h1, hexVal h2, hexVal h3, hexVal h4 with
        | some v1, some v2, some v3, some v4 =>
          match parseStringRest r3 with
          | some (cs, r4) =>
            some (Char.ofNat (((v1 * 16 + v2) * 16 + v3) * 16 + v4) :: cs, r4)
          | none => none
        | _, _, _, _ => none
      | _ => none
    else
      match escChar e with
      | some ch =>
        match parseStringRest r2 with
        | some (cs, r3) => some (ch :: cs, r3)
        | none => none
      | none => none
  | [92] => none
  | c :: r =>
    if c < 32 then none
    else
      match parseStringRest r with
      | some (cs, r2) => some (Char.ofNat c :: cs, r2)
      | none => none

mutual

/-- Parse one JSON value. -/
def parseVal : ℕ → List ℕ → Option (JVal × List ℕ)
  | 0, _ => none
  | fuel + 1, s =>
    match skipWs s with
    | [] => none
    | c :: r =>
      if c = 110 then
        match r with
        | 117 :: 108 :: 108 :: r2 => some (.null, r2)
        | _ => none
      else if c = 116 then
        match r with
        | 114 :: 117 :: 101 :: r2 => some (.bool true, r2)
        | _ => none
      else if c = 102 then
        match r with
        | 97 :: 108 :: 115 :: 101 :: r2 => some (.bool false, r2)
        | _ => none
      else if c = 34 then
        match parseStringRest r with
        | some (cs, r2) => some (.str cs, r2)
        | none => none
      else if c = 91 then parseArrayRest fuel r
      else if c = 123 then parseObjRest fuel r
      else if c = 45 then
        match parseNumBody r with
        | some (q, r2) => some (.num (-q), r2)
        | none => none
      else if isDigitCode c then
        match parseNumBody (c :: r) with
        | some (q, r2) => some (.num q, r2)
        | none => none
      else none

/-- Parse the remainder of an array after `[`. -/
def parseArrayRest : ℕ → List ℕ → Option (JVal × List ℕ)
  | 0, _ => none
  | fuel + 1, s =>
    match skipWs s with
    | 93 :: r => some (.arr [], r)
    | _ =>
      match parseArrayItems fuel s with
      | some (xs, r) => some (.arr xs, r)
      | none => none

/-- Parse one or more comma-separated array elements and the closing `]`. -/
def parseArrayItems : ℕ → List ℕ → Option (List JVal × List ℕ)
  | 0, _ => none
  | fuel + 1, s =>
    match parseVal fuel s with
    | none => none
    | some (v, r) =>
      match skipWs r with
      | 44 :: r2 =>
        match parseArrayItems fuel r2 with
        | some (xs, r3) => some (v :: xs, r3)
        | none => none
      | 93 :: r2 => some ([v], r2)
      | _ => none

/-- Parse the remainder of an object after the opening brace. -/
def parseObjRest : ℕ → List ℕ → Option (JVal × List ℕ)
  | 0, _ => none
  | fuel + 1, s =>
    match skipWs s with
    | 125 :: r => some (.obj [], r)
    | _ =>
      match parseObjItems fuel s with
      | some (fields, r) => some (.obj fields, r)
      | none => none

/-- Parse one or more `"key": value` members and the closing brace. -/
def parseObjItems : ℕ → List ℕ → Option (List (List Char × JVal) × List ℕ)
  | 0, _ => none
  | fuel + 1, s =>
    match skipWs s with
    | 34 :: r =>
      match parseStringRest r with
      | none => none
      | some (key, r2) =>
        match skipWs r2 with
        | 58 :: r3 =>
          match parseVal fuel r3 with
          | none => none
          | some (v, r4) =>
            match skipWs r4 with
            | 44 :: r5 =>
              match parseObjItems fuel r5 with
              | some (fields, r6) => some ((key, v) :: fields, r6)
              | none => none
            | 125 :: r5 => some ([(key, v)], r5)
            | _ => none
        | _ => none
    | _ => none

end

/-- `JSON.parse` on a binary string: parse one value, allow trailing
whitespace only. -/
def jsonParse (s : List ℕ) : Option JVal :=
  match parseVal (s.length + 1) s with
  | some (v, r) => if skipWs r = [] then some v else none
  | none => none

end CadetMap.Json

namespace CadetMap.RouteUtils

/-- `connectVia` after normalisation: one of the strings `'direct'`,
`'route'`. -/
inductive ConnectVia where
  | direct
  | route
deriving DecidableEq, Repr

def ROUTE_SHARE_VERSION : ℚ := 1

def ROUTE_SHARE_SCALE : ℚ := 100000

/-- A normalised route snapshot (the value produced by
`normaliseRouteShareSnapshot`). -/
structure RouteSnapshot where
  version : ℚ
  connectVia : ConnectVia
  start : Option Position
  endPos : Option Position
  checkpoints : List Position
deriving DecidableEq, Repr

/-- `normaliseRouteShareSnapshot` (routeUtils.js lines 89-108). -/
def normaliseRouteShareSnapshot (snapshot : JVal) : Option RouteSnapshot :=
  if ¬ snapshot.truthy ∨ ¬ snapshot.isObjectType then none
  else
    let version : ℚ :=
      match snapshot.getField "version".toList with
      | .num q => q
      | _ => ROUTE_SHARE_VERSION
    if version ≠ ROUTE_SHARE_VERSION then none
    else
      let connectVia : ConnectVia :=
        match snapshot.getField "connectVia".toList with
        | .str s => if s = "route".toList then .route else .direct
        | _ => .direct
      let start := normalisePosition (snapshot.getField "start".toList)
      let endPos := normalisePosition (snapshot.getField "end".toList)
      let checkpoints : List Position :=
        match snapshot.getField "checkpoints".toList with
        | .arr xs => (xs.map normalisePosition).filterMap id
        | _ => []
      some ⟨version, connectVia, start, endPos, checkpoints⟩

/-- `DataView.setUint16(..., big-endian)`: two bytes, value modulo 2^16. -/
def uint16BEBytes (n : ℕ) : List ℕ := [n / 256 % 256, n % 256]

/-- `DataView.setInt32(..., big-endian)`: four bytes of the value modulo
2^32. -/
def int32BEBytes (i : ℤ) : List ℕ :=
  let u := (i % 4294967296).toNat
  [u / 16777216 % 256, u / 65536 % 256, u / 256 % 256, u % 256]

/-- `DataView.getInt32(..., big-endian)` from four byte values. -/
def getInt32BE (b0 b1 b2 b3 : ℕ) : ℤ :=
  let u := b0 * 16777216 + b1 * 65536 + b2 * 256 + b3
  if u < 2147483648 then (u : ℤ) else (u : ℤ) - 4294967296

/-- `writeCoordinate` inside `encodeBinaryRouteShare` (lines 147-152). -/
def writeCoordinate (p : Position) : List ℕ :=
  int32BEBytes (jsRound (p.lat * ROUTE_SHARE_SCALE)) ++
  int32BEBytes (jsRound (p.lng * ROUTE_SHARE_SCALE))

/-- `encodeBinaryRouteShare` (routeUtils.js lines 129-163):
`[version, flags, connectVia, count-hi, count-lo]` followed by the
coordinates in the order start, checkpoints, end, all base64url-encoded. -/
def encodeBinaryRouteShare (n : RouteSnapshot) : List Char :=
  let hasStart := n.start.isSome
  let hasEnd := n.endPos.isSome
  let checkpointCount := n.checkpoints.length
  let flags : ℕ := (if hasStart then 1 else 0) ||| (if hasEnd then 2 else 0)
  let bytes : List ℕ :=
    [1, flags, if n.connectVia = .route then 1 else 0] ++
    uint16BEBytes checkpointCount ++
    (match n.start with | some p => writeCoordinate p | none => []) ++
    (n.checkpoints.map writeCoordinate).flatten ++
    (match n.endPos with | some p => writeCoordinate p | none => [])
  Base64.toBase64Url bytes

/-- A raw `{lat, lng}` object as built by `readCoordinate`. -/
def rawPosToJVal (lat lng : ℚ) : JVal :=
  .obj [("lat".toList, .num lat), ("lng".toList, .num lng)]

/-- `readCoordinate` inside `decodeBinaryRouteShare` (lines 186-192); the
caller has already verified that eight bytes are available, so the
fallback row is unreachable. -/
def readCoordinate (l : List ℕ) : (ℚ × ℚ) × List ℕ :=
  match l with
  | b0 :: b1 :: b2 :: b3 :: b4 :: b5 :: b6 :: b7 :: rest =>
    (((getInt32BE b0 b1 b2 b3 : ℚ) / ROUTE_SHARE_SCALE,
      (getInt32BE b4 b5 b6 b7 : ℚ) / ROUTE_SHARE_SCALE), rest)
  | _ => ((0, 0), [])

/-- The checkpoint-reading loop of `decodeBinaryRouteShare`. -/
def readCheckpoints : ℕ → List ℕ → List JVal × List ℕ
  | 0, l => ([], l)
  | n + 1, l =>
    let (p, l2) := readCoordinate l
    let (ps, l3) := readCheckpoints n l2
    (rawPosToJVal p.1 p.2 :: ps, l3)

/-- `decodeBinaryRouteShare` (routeUtils.js lines 165-211), returning the
raw (unvalidated) snapshot object. -/
def decodeBinaryRouteShare (code : List Char) : Option JVal :=
  match Base64.fromBase64Url code with
  | none => none
  | some bytes =>
    match bytes with
    | v :: flags :: cv :: c1 :: c2 :: rest =>
      if v ≠ 1 then none
      else
        let connectVia : JVal := .str (if cv = 1 then "route".toList else "direct".toList)
        let checkpointCount := c1 * 256 + c2
        let expectedCoordinates :=
          (if flags &&& 1 ≠ 0 then 1 else 0) + (if flags &&& 2 ≠ 0 then 1 else 0) +
            checkpointCount
        if rest.length ≠ expectedCoordinates * 8 then none
        else
          let (start, rest2) : JVal × List ℕ :=
            if flags &&& 1 ≠ 0 then
              let (p, r) := readCoordinate rest
              (rawPosToJVal p.1 p.2, r)
            else (JVal.null, rest)
          let (cps, rest3) := readCheckpoints checkpointCount rest2
          let endv : JVal :=
            if flags &&& 2 ≠ 0 then
              let (p, _) := readCoordinate rest3
              rawPosToJVal p.1 p.2
            else JVal.null
          some (.obj [("version".toList, .num 1), ("connectVia".toList, connectVia),
                      ("start".toList, start), ("end".toList, endv),
                      ("checkpoints".toList, .arr cps)])
    | _ => none

/-- `encodeRouteShare` (routeUtils.js lines 213-217); the empty string is
the "nothing to encode" result. -/
def encodeRouteShare (snapshot : JVal) : List Char :=
  match normaliseRouteShareSnapshot snapshot with
  | none => []
  | some n => encodeBinaryRouteShare n

/-- `decodeRouteShare` (routeUtils.js lines 219-233) on a string input. -/
def decodeRouteShare (code : List Char) : Option RouteSnapshot :=
  let trimmed := jsTrim code
  if trimmed = [] then none
  else
    match decodeBinaryRouteShare trimmed with
    | some binaryResult => normaliseRouteShareSnapshot binaryResult
    | none =>
      match Base64.base64Decode trimmed with
      | none => none
      | some binstr =>
        match Json.jsonParse binstr with
        | none => none
        | some parsed => normaliseRouteShareSnapshot parsed

/-- `decodeRouteShare` on an arbitrary value (`typeof code !== 'string'`
returns `null`). -/
def decodeRouteShareVal (code : JVal) : Option RouteSnapshot :=
  match code with
  | .str s => decodeRouteShare s
  | _ => none

/-- The typed snapshot embedded back into a JavaScript value, for feeding
`encodeRouteShare` a snapshot-shaped object. -/
def Position.toJVal (p : Position) : JVal := rawPosToJVal p.lat p.lng

def connectViaToJVal : ConnectVia → JVal
  | .direct => .str "direct".toList
  | .route => .str "route".toList

def snapshotToJVal (s : RouteSnapshot) : JVal :=
  .obj [("version".toList, .num s.version),
        ("connectVia".toList, connectViaToJVal s.connectVia),
        ("start".toList, (match s.start with | some p => p.toJVal | none => .null)),
        ("end".toList, (match s.endPos with | some p => p.toJVal | none => .null)),
        ("checkpoints".toList, .arr (s.checkpoints.map Position.toJVal))]

/-! ### Location codes (geohash), routeUtils.js lines 235-330 -/

def GEOHASH_BASE32 : List Char := "0123456789bcdefghjkmnpqrstuvwxyz".toList

def GEOHASH_BITS : List ℕ := [16, 8, 4, 2, 1]

/-- The bisection state of the geohash loops. -/
structure GeoBox where
  minLat : ℚ
  maxLat : ℚ
  minLng : ℚ
  maxLng : ℚ
  evenBit : Bool
deriving DecidableEq, Repr

def initialGeoBox : GeoBox := ⟨-90, 90, -180, 180, true⟩

/-- One bit of the geohash encoding loop: bisect the longitude range on an
even bit, the latitude range on an odd bit; the bit is set when the
coordinate is at or above the midpoint. -/
def encGeoStep (pos : Position) (st : GeoBox) : Bool × GeoBox :=
  if st.evenBit then
    if pos.lng ≥ (st.minLng + st.maxLng) / 2 then
      (true, { st with minLng := (st.minLng + st.maxLng) / 2, evenBit := false })
    else (false, { st with maxLng := (st.minLng + st.maxLng) / 2, evenBit := false })
  else
    if pos.lat ≥ (st.minLat + st.maxLat) / 2 then
      (true, { st with minLat := (st.minLat + st.maxLat) / 2, evenBit := true })
    else (false, { st with maxLat := (st.minLat + st.maxLat) / 2, evenBit := true })

/-- Five bits of the encoding loop, accumulated into one character index
with `character |= GEOHASH_BITS[bit]`. -/
def encGeoChar (pos : Position) (st : GeoBox) : ℕ × GeoBox :=
  let r1 := encGeoStep pos st
  let r2 := encGeoStep pos r1.2
  let r3 := encGeoStep pos r2.2
  let r4 := encGeoStep pos r3.2
  let r5 := encGeoStep pos r4.2
  (((((0 ||| (if r1.1 then 16 else 0)) ||| (if r2.1 then 8 else 0)) |||
      (if r3.1 then 4 else 0)) ||| (if r4.1 then 2 else 0)) ||| (if r5.1 then 1 else 0), r5.2)

/-- The `while (hash.length < precision)` loop, one character per
iteration. -/
def encGeoChars (pos : Position) : ℕ → GeoBox → List ℕ
  | 0, _ => []
  | n + 1, st => (encGeoChar pos st).1 :: encGeoChars pos n (encGeoChar pos st).2

/-- `encodeLocationCode` (routeUtils.js lines 238-285).  The precision
argument is a number in the model (a non-number precision also throws in
the source); `⌈precision⌉` characters are emitted, which is how many times
`hash.length < precision` holds starting from the empty hash. -/
def encodeLocationCode (position : JVal) (precision : ℚ) : Except Unit (Option (List Char)) :=
  if precision < 1 ∨ precision > 12 then .error ()
  else
    match normalisePosition position with
    | none => .ok none
    | some pos =>
      .ok (some ((encGeoChars pos ⌈precision⌉.toNat initialGeoBox).map
        (fun idx => GEOHASH_BASE32.getD idx ' ')))

/-- One bit of the geohash decoding loop, driven by a bit of the character
index. -/
def decGeoStep (b : Bool) (st : GeoBox) : GeoBox :=
  if st.evenBit then
    if b then { st with minLng := (st.minLng + st.maxLng) / 2, evenBit := false }
    else { st with maxLng := (st.minLng + st.maxLng) / 2, evenBit := false }
  else
    if b then { st with minLat := (st.minLat + st.maxLat) / 2, evenBit := true }
    else { st with maxLat := (st.minLat + st.maxLat) / 2, evenBit := true }

/-- Five bits of the decoding loop for one character index, with masks
`GEOHASH_BITS = [16, 8, 4, 2, 1]` and `charIndex & mask` as the bit. -/
def decGeoChar (idx : ℕ) (st : GeoBox) : GeoBox :=
  let s1 := decGeoStep (idx &&& 16 ≠ 0) st
  let s2 := decGeoStep (idx &&& 8 ≠ 0) s1
  let s3 := decGeoStep (idx &&& 4 ≠ 0) s2
  let s4 := decGeoStep (idx &&& 2 ≠ 0) s3
  decGeoStep (idx &&& 1 ≠ 0) s4

/-- The character loop of `decodeLocationCode`: lower-case each character,
reject anything outside the alphabet. -/
def decGeoChars : List Char → GeoBox → Option GeoBox
  | [], st => some st
  | c :: rest, st =>
    match GEOHASH_BASE32.findIdx? (fun x => x = c.toLower) with
    | none => none
    | some idx => decGeoChars rest (decGeoChar idx st)

/-- `decodeLocationCode` (routeUtils.js lines 287-330): midpoint of the
converged bounding box. -/
def decodeLocationCode (hash : List Char) : Option Position :=
  if hash.length = 0 then none
  else
    match decGeoChars hash initialGeoBox with
    | none => none
    | some st => some ⟨(st.minLat + st.maxLat) / 2, (st.minLng + st.maxLng) / 2⟩

end CadetMap.RouteUtils

namespace CadetMap.GeoMath

/-!
The coordinate-math and grid-reference file (`gridUtils`): spherical
trigonometry over `ℝ`, with explicit non-finite values where the code can
meet them.  Thrown errors are classified by the specification's taxonomy.
-/

/-- The error taxonomy for thrown errors of the coordinate/grid code. -/
inductive GeoErr where
  | missingInput
  | invalidArgument
  | invalidPrecision
  | invalidFormat
  | typeError
deriving DecidableEq, Repr

/-- A JavaScript number in the real-number model. -/
inductive RNum where
  | num (x : ℝ)
  | nan
  | inf
  | ninf

/-- `Number.isNaN`. -/
def RNum.isNaN : RNum → Bool
  | .nan => true
  | _ => false

/-- The `< 0` comparison on a JavaScript number (false for `NaN`). -/
def RNum.negative : RNum → Prop
  | .num x => x < 0
  | .ninf => True
  | _ => False

noncomputable section
open scoped Classical

open Real

/-- JavaScript truncation toward zero. -/
noncomputable def jsTruncR (r : ℝ) : ℤ := if 0 ≤ r then ⌊r⌋ else ⌈r⌉

/-- The JavaScript `%` operator on finite numbers: remainder with the sign
of the dividend, `a - b * trunc(a / b)`. -/
noncomputable def jsRemR (a b : ℝ) : ℝ := a - b * (jsTruncR (a / b) : ℝ)

/-- `Math.atan2` on finite arguments. -/
noncomputable def jsAtan2 (y x : ℝ) : ℝ :=
  if 0 < x then arctan (y / x)
  else if x < 0 then
    (if 0 ≤ y then arctan (y / x) + π else arctan (y / x) - π)
  else if 0 < y then π / 2
  else if y < 0 then -(π / 2)
  else 0

/-- IEEE addition. -/
noncomputable def radd : RNum → RNum → RNum
  | .num a, .num b => .num (a + b)
  | .nan, _ => .nan
  | _, .nan => .nan
  | .inf, .ninf => .nan
  | .ninf, .inf => .nan
  | .inf, _ => .inf
  | _, .inf => .inf
  | .ninf, _ => .ninf
  | _, .ninf => .ninf

/-- IEEE subtraction. -/
noncomputable def rsub : RNum → RNum → RNum
  | .num a, .num b => .num (a - b)
  | .nan, _ => .nan
  | _, .nan => .nan
  | .inf, .inf => .nan
  | .ninf, .ninf => .nan
  | .inf, _ => .inf
  | _, .inf => .ninf
  | .ninf, _ => .ninf
  | _, .ninf => .inf

/-- IEEE multiplication. -/
noncomputable def rmul : RNum → RNum → RNum
  | .num a, .num b => .num (a * b)
  | .nan, _ => .nan
  | _, .nan => .nan
  | .inf, .inf => .inf
  | .inf, .ninf => .ninf
  | .ninf, .inf => .ninf
  | .ninf, .ninf => .inf
  | .inf, .num b => if 0 < b then .inf else if b < 0 then .ninf else .nan
  | .num a, .inf => if 0 < a then .inf else if a < 0 then .ninf else .nan
  | .ninf, .num b => if 0 < b then .ninf else if b < 0 then .inf else .nan
  | .num a, .ninf => if 0 < a then .ninf else if a < 0 then .inf else .nan

/-- IEEE division (division by zero uses the `+0` sign). -/
noncomputable def rdiv : RNum → RNum → RNum
  | .num a, .num b =>
    if b = 0 then (if a = 0 then .nan else if 0 < a then .inf else .ninf)
    else .num (a / b)
  | .nan, _ => .nan
  | _, .nan => .nan
  | .num _, .inf => .num 0
  | .num _, .ninf => .num 0
  | .inf, .num b => if 0 ≤ b then .inf else .ninf
  | .ninf, .num b => if 0 ≤ b then .ninf else .inf
  | .inf, _ => .nan
  | .ninf, _ => .nan

/-- `Math.sin`. -/
noncomputable def rsin : RNum → RNum
  | .num x => .num (Real.sin x)
  | _ => .nan

/-- `Math.cos`. -/
noncomputable def rcos : RNum → RNum
  | .num x => .num (Real.cos x)
  | _ => .nan

/-- `Math.asin` (NaN outside `[-1, 1]`). -/
noncomputable def rasin : RNum → RNum
  | .num x => if -1 ≤ x ∧ x ≤ 1 then .num (Real.arcsin x) else .nan
  | _ => .nan

/-- `Math.atan2`. -/
noncomputable def ratan2 : RNum → RNum → RNum
  | .num y, .num x => .num (jsAtan2 y x)
  | .nan, _ => .nan
  | _, .nan => .nan
  | .inf, .num _ => .num (π / 2)
  | .ninf, .num _ => .num (-(π / 2))
  | .num _, .inf => .num 0
  | .num y, .ninf => if 0 ≤ y then .num π else .num (-π)
  | .inf, .inf => .num (π / 4)
  | .inf, .ninf => .num (3 * π / 4)
  | .ninf, .inf => .num (-(π / 4))
  | .ninf, .ninf => .num (-(3 * π / 4))

/-- The `%` operator on JavaScript numbers. -/
noncomputable def rrem : RNum → RNum → RNum
  | .num a, .num b => if b = 0 then .nan else .num (jsRemR a b)
  | .nan, _ => .nan
  | _, .nan => .nan
  | .num a, .inf => .num a
  | .num a, .ninf => .num a
  | .inf, _ => .nan
  | .ninf, _ => .nan

def EARTH_RADIUS_METERS : ℝ := 6371000

/-- `toRadians` (gridUtils line 3). -/
noncomputable def toRadians (degrees : ℝ) : ℝ := degrees * π / 180

/-- `toDegrees` (gridUtils line 4). -/
noncomputable def toDegrees (radians : ℝ) : ℝ := radians * 180 / π

/-- `normalizeLongitude` (gridUtils line 5): `((lng + 540) % 360) - 180`
with the JavaScript remainder. -/
noncomputable def normalizeLongitude (longitude : ℝ) : ℝ :=
  jsRemR (longitude + 540) 360 - 180

noncomputable def toRadiansN (d : RNum) : RNum := rdiv (rmul d (.num π)) (.num 180)

noncomputable def toDegreesN (r : RNum) : RNum := rdiv (rmul r (.num 180)) (.num π)

noncomputable def normalizeLongitudeN (l : RNum) : RNum :=
  rsub (rrem (radd l (.num 540)) (.num 360)) (.num 180)

/-- A position with real coordinates, as held by the application state. -/
structure GeoPosition where
  lat : ℝ
  lng : ℝ

/-- A position whose coordinates may be non-finite (the uncaught output of
`destinationFromBearing` on extreme inputs). -/
structure RNumPosition where
  lat : RNum
  lng : RNum

/-- `destinationFromBearing` (gridUtils lines 45-81). -/
noncomputable def destinationFromBearing (origin : Option GeoPosition)
    (bearingDegrees distanceMeters : Option RNum) : Except GeoErr RNumPosition :=
  match origin with
  | none => .error .missingInput
  | some o =>
    match bearingDegrees with
    | none => .error .invalidArgument
    | some b =>
      if b.isNaN then .error .invalidArgument
      else
        match distanceMeters with
        | none => .error .invalidArgument
        | some d =>
          if d.isNaN then .error .invalidArgument
          else if d.negative then .error .invalidArgument
          else
            let angularDistance := rdiv d (.num EARTH_RADIUS_METERS)
            let bearingRad := toRadiansN b
            let lat1 := toRadiansN (.num o.lat)
            let lng1 := toRadiansN (.num o.lng)
            let sinLat1 := rsin lat1
            let cosLat1 := rcos lat1
            let sinAngular := rsin angularDistance
            let cosAngular := rcos angularDistance
            let lat2 := rasin (radd (rmul sinLat1 cosAngular)
              (rmul (rmul cosLat1 sinAngular) (rcos bearingRad)))
            let lng2 := radd lng1 (ratan2 (rmul (rmul (rsin bearingRad) sinAngular) cosLat1)
              (rsub cosAngular (rmul sinLat1 (rsin lat2))))
            .ok ⟨toDegreesN lat2, normalizeLongitudeN (toDegreesN lng2)⟩

/-- `clampPrecision` (gridUtils lines 7-12). -/
def clampPrecision (precision : ℚ) : Except GeoErr ℚ :=
  if precision = 3 ∨ precision = 4 then .ok precision else .error .invalidPrecision

/-- `precisionToUnitMeters` (gridUtils lines 14-20). -/
def precisionToUnitMeters (precision : ℚ) : Except GeoErr ℚ :=
  match clampPrecision precision with
  | .error e => .error e
  | .ok v => .ok (if v = 3 then 100 else 10)

/-- `normaliseGridDigits` (gridUtils lines 22-33): `String(value)` of a
string is the string itself; null and empty input give `null`, a non-digit
character or a length different from the precision throw. -/
def normaliseGridDigits (value : Option (List Char)) (precision : ℚ) :
    Except GeoErr (Option ℕ) :=
  match value with
  | none => .ok none
  | some v =>
    let trimmed := jsTrim v
    if trimmed = [] then .ok none
    else if ¬ trimmed.all Char.isDigit then .error .invalidFormat
    else if (trimmed.length : ℚ) ≠ precision then .error .invalidFormat
    else .ok (some (natOfDigits trimmed))

/-- `projectOffset` (gridUtils lines 35-43). -/
noncomputable def projectOffset (p : GeoPosition) (eastOffset northOffset : ℝ) :
    GeoPosition :=
  let latRad := toRadians p.lat
  ⟨p.lat + northOffset / EARTH_RADIUS_METERS * (180 / π),
   p.lng + eastOffset / (EARTH_RADIUS_METERS * Real.cos latRad) * 180 / π⟩

/-- A grid reference as consumed by `gridReferenceToLatLng`: digit strings
(possibly absent) and an optionally stored precision. -/
structure GridReference where
  easting : Option (List Char)
  northing : Option (List Char)
  precision : Option ℚ

/-- The nullish-coalescing precision chain of `gridReferenceToLatLng`
(line 100): `precision ?? originReference.precision ??
targetReference?.precision ?? 3`. -/
def gridResolvePrecision (precision originRefPrecision targetRefPrecision : Option ℚ) : ℚ :=
  ((precision.or originRefPrecision).or targetRefPrecision).getD 3

/-- The nullish-coalescing precision chain of `latLngToGridReference`
(line 125): `precision ?? originReference.precision ?? 3`. -/
def latLngResolvePrecision (precision originRefPrecision : Option ℚ) : ℚ :=
  (precision.or originRefPrecision).getD 3

/-- ToNumber of a possibly-null digit value in the offset arithmetic
(`null` coerces to `0`). -/
def digitsOrZero : Option ℕ → ℚ
  | some n => (n : ℚ)
  | none => 0

/-- `gridReferenceToLatLng` (gridUtils lines 86-113).  Reading
`targetReference.easting` when `targetReference` is null throws a
`TypeError`; that read happens after the origin reference digits have been
parsed. -/
noncomputable def gridReferenceToLatLng (origin : Option GeoPosition)
    (originReference targetReference : Option GridReference)
    (precision : Option ℚ) : Except GeoErr GeoPosition :=
  match origin with
  | none => .error .missingInput
  | some o =>
    match originReference with
    | none => .error .missingInput
    | some oRef =>
      match clampPrecision (gridResolvePrecision precision oRef.precision
          (targetReference.bind (·.precision))) with
      | .error e => .error e
      | .ok resolvedPrecision =>
        match normaliseGridDigits oRef.easting resolvedPrecision with
        | .error e => .error e
        | .ok originEast =>
          match normaliseGridDigits oRef.northing resolvedPrecision with
          | .error e => .error e
          | .ok originNorth =>
            match targetReference with
            | none => .error .typeError
            | some tRef =>
              match normaliseGridDigits tRef.easting resolvedPrecision with
              | .error e => .error e
              | .ok targetEast =>
                match normaliseGridDigits tRef.northing resolvedPrecision with
                | .error e => .error e
                | .ok targetNorth =>
                  match precisionToUnitMeters resolvedPrecision with
                  | .error e => .error e
                  | .ok unitMeters =>
                    let eastOffset := (digitsOrZero targetEast - digitsOrZero originEast) * unitMeters
                    let northOffset := (digitsOrZero targetNorth - digitsOrZero originNorth) * unitMeters
                    .ok (projectOffset o (eastOffset : ℝ) (northOffset : ℝ))

/-- A grid reference as the application passes it to
`latLngToGridReference`: the UI stores the origin reference's easting and
northing as numbers, so the `easting + offset` arithmetic is numeric. -/
structure NumericGridReference where
  easting : ℝ
  northing : ℝ
  precision : Option ℚ

/-- The rendered grid reference produced by `latLngToGridReference`. -/
structure GridRefOut where
  easting : List Char
  northing : List Char
  precision : ℚ

/-- `Math.round` on a real. -/
noncomputable def jsRoundR (x : ℝ) : ℤ := ⌊x + 1 / 2⌋

/-- `padStart(len, '0')` on a rendered number. -/
def padStartZeros (s : List Char) (len : ℕ) : List Char :=
  List.replicate (len - s.length) '0' ++ s

/-- `latLngToGridReference` (gridUtils lines 115-145). -/
noncomputable def latLngToGridReference (origin : Option GeoPosition)
    (originReference : Option NumericGridReference) (point : GeoPosition)
    (precision : Option ℚ) : Except GeoErr GridRefOut :=
  match origin, originReference with
  | none, _ => .error .missingInput
  | _, none => .error .missingInput
  | some o, some oRef =>
    match clampPrecision (latLngResolvePrecision precision oRef.precision) with
    | .error e => .error e
    | .ok resolvedPrecision =>
      match precisionToUnitMeters resolvedPrecision with
      | .error e => .error e
      | .ok unitMeters =>
        let latRad := o.lat * π / 180
        let deltaNorth := (point.lat - o.lat) * π * EARTH_RADIUS_METERS / 180
        let deltaEast := (point.lng - o.lng) * π * EARTH_RADIUS_METERS * Real.cos latRad / 180
        let eastDigits := jsRoundR (oRef.easting + deltaEast / (unitMeters : ℝ))
        let northDigits := jsRoundR (oRef.northing + deltaNorth / (unitMeters : ℝ))
        let len := (⌊resolvedPrecision⌋).toNat
        .ok ⟨padStartZeros (toString eastDigits).toList len,
             padStartZeros (toString northDigits).toList len,
             resolvedPrecision⟩

end

end CadetMap.GeoMath

namespace CadetMap.Compass

open CadetMap.GeoMath

/-- `toRadians` (useCompass.js line 3). -/
noncomputable def toRadians (degrees : ℝ) : ℝ := degrees * Real.pi / 180

/-- `calculateDistance` (useCompass.js lines 21-36): haversine distance,
`null` when either endpoint is missing. -/
noncomputable def calculateDistance (source target : Option GeoPosition) : Option ℝ :=
  match source, target with
  | some f, some t =>
    let earthRadius : ℝ := 6371000
    let lat1 := toRadians f.lat
    let lat2 := toRadians t.lat
    let deltaLat := toRadians (t.lat - f.lat)
    let deltaLng := toRadians (t.lng - f.lng)
    let a := Real.sin (deltaLat / 2) * Real.sin (deltaLat / 2) +
      Real.cos lat1 * Real.cos lat2 * Real.sin (deltaLng / 2) * Real.sin (deltaLng / 2)
    let c := 2 * jsAtan2 (Real.sqrt a) (Real.sqrt (1 - a))
    some (earthRadius * c)
  | _, _ => none

end CadetMap.Compass

namespace CadetMap.GeoMath

/-! ### Arithmetic lemmas for the real-number model -/

@[simp] theorem radd_num (a b : ℝ) : radd (.num a) (.num b) = .num (a + b) := rfl

@[simp] theorem rsub_num (a b : ℝ) : rsub (.num a) (.num b) = .num (a - b) := rfl

@[simp] theorem rmul_num (a b : ℝ) : rmul (.num a) (.num b) = .num (a * b) := rfl

@[simp] theorem rsin_num (x : ℝ) : rsin (.num x) = .num (Real.sin x) := rfl

@[simp] theorem rcos_num (x : ℝ) : rcos (.num x) = .num (Real.cos x) := rfl

@[simp] theorem ratan2_num (y x : ℝ) : ratan2 (.num y) (.num x) = .num (jsAtan2 y x) := rfl

theorem rdiv_num {b : ℝ} (a : ℝ) (h : b ≠ 0) : rdiv (.num a) (.num b) = .num (a / b) := by
  simp [rdiv, h]

theorem rasin_num {x : ℝ} (h1 : -1 ≤ x) (h2 : x ≤ 1) :
    rasin (.num x) = .num (Real.arcsin x) := by
  simp [rasin, h1, h2]

theorem rrem_num {b : ℝ} (a : ℝ) (h : b ≠ 0) : rrem (.num a) (.num b) = .num (jsRemR a b) := by
  simp [rrem, h]

theorem toRadiansN_num (d : ℝ) : toRadiansN (.num d) = .num (toRadians d) := by
  rw [toRadiansN, rmul_num, rdiv_num _ (by norm_num : (180 : ℝ) ≠ 0)]
  rfl

theorem toDegreesN_num (r : ℝ) : toDegreesN (.num r) = .num (toDegrees r) := by
  rw [toDegreesN, rmul_num, rdiv_num _ Real.pi_ne_zero]
  rfl

theorem normalizeLongitudeN_num (l : ℝ) :
    normalizeLongitudeN (.num l) = .num (normalizeLongitude l) := by
  rw [normalizeLongitudeN, radd_num, rrem_num _ (by norm_num : (360 : ℝ) ≠ 0), rsub_num]
  rfl

/-- `Math.atan2` always lands in `[-π, π]`. -/
theorem jsAtan2_mem (y x : ℝ) : -Real.pi ≤ jsAtan2 y x ∧ jsAtan2 y x ≤ Real.pi := by
  have hpi := Real.pi_pos
  have h1 := Real.arctan_lt_pi_div_two (y / x)
  have h2 := Real.neg_pi_div_two_lt_arctan (y / x)
  unfold jsAtan2
  split
  · constructor <;> nlinarith
  · rename_i hx0
    split
    · rename_i hxneg
      split
      · rename_i hy
        have harg : y / x ≤ 0 := div_nonpos_of_nonneg_of_nonpos hy (le_of_lt hxneg)
        have hle : Real.arctan (y / x) ≤ 0 := by
          have := Real.arctan_strictMono.monotone harg
          rwa [Real.arctan_zero] at this
        constructor <;> nlinarith
      · rename_i hy
        push_neg at hy
        have harg : 0 ≤ y / x := by
          have h' : 0 < (-y) / (-x) := div_pos (by linarith) (by linarith)
          rw [neg_div_neg_eq] at h'
          linarith
        have hge : 0 ≤ Real.arctan (y / x) := by
          have := Real.arctan_strictMono.monotone harg
          rwa [Real.arctan_zero] at this
        constructor <;> nlinarith
    · split
      · constructor <;> nlinarith
      · split
        · constructor <;> nlinarith
        · constructor <;> nlinarith

theorem jsAtan2_zero_one : jsAtan2 0 1 = 0 := by
  rw [jsAtan2, if_pos one_pos]
  simp [Real.arctan_zero]

/-- The JavaScript remainder of a non-negative dividend by `360` lies in
`[0, 360)`. -/
theorem jsRemR_nonneg_mem {a : ℝ} (h : 0 ≤ a) :
    0 ≤ jsRemR a 360 ∧ jsRemR a 360 < 360 := by
  have hq : (0 : ℝ) ≤ a / 360 := by positivity
  rw [jsRemR, jsTruncR, if_pos hq]
  have hfr0 : 0 ≤ Int.fract (a / 360) := Int.fract_nonneg _
  have hfr1 : Int.fract (a / 360) < 1 := Int.fract_lt_one _
  have hrepr : a - 360 * (⌊a / 360⌋ : ℝ) = 360 * Int.fract (a / 360) := by
    rw [Int.fract, mul_sub, mul_div_cancel₀ _ (by norm_num : (360 : ℝ) ≠ 0)]
  rw [hrepr]
  constructor <;> nlinarith

/-- `normalizeLongitude` maps every raw longitude at or above `-540°` into
`[-180, 180)`. -/
theorem normalizeLongitude_mem {x : ℝ} (h : -540 ≤ x) :
    -180 ≤ normalizeLongitude x ∧ normalizeLongitude x < 180 := by
  have := jsRemR_nonneg_mem (a := x + 540) (by linarith)
  rw [normalizeLongitude]
  constructor <;> linarith [this.1, this.2]

end CadetMap.GeoMath

namespace CadetMap.Claims

open CadetMap.GeoMath CadetMap.Compass

/-- C8: for every position `A` with finite latitude and longitude,
`distanceBetween(A, A)` (`calculateDistance`) returns exactly `0`. -/
theorem calculateDistance_self_eq_zero (A : GeoPosition) :
    calculateDistance (some A) (some A) = some 0 := by
  rw [calculateDistance]
  have hd : ∀ z : ℝ, Compass.toRadians (z - z) = 0 := fun z => by
    rw [sub_self, Compass.toRadians, zero_mul, zero_div]
  rw [hd A.lat, hd A.lng]
  simp only [zero_div, Real.sin_zero, mul_zero, zero_mul, add_zero, zero_add]
  rw [Real.sqrt_zero, sub_zero, Real.sqrt_one, jsAtan2_zero_one, mul_zero, mul_zero]

/-- C3 (amended): `destinationFromBearing` fails `MissingInput` when the
origin is absent; with an origin present it fails `InvalidArgument` when
the bearing is absent or `NaN`, and — bearing valid — when the distance is
absent, `NaN`, or negative.  An infinite bearing is *not* rejected: the
call returns a position value. -/
theorem destinationFromBearing_error_cases (o : GeoPosition) (b d : Option RNum) (β x : ℝ) :
    (destinationFromBearing none b d = .error .missingInput) ∧
    (destinationFromBearing (some o) none d = .error .invalidArgument) ∧
    (destinationFromBearing (some o) (some .nan) d = .error .invalidArgument) ∧
    (destinationFromBearing (some o) (some (.num β)) none = .error .invalidArgument) ∧
    (destinationFromBearing (some o) (some (.num β)) (some .nan) = .error .invalidArgument) ∧
    (x < 0 → destinationFromBearing (some o) (some (.num β)) (some (.num x)) =
      .error .invalidArgument) ∧
    (∃ p, destinationFromBearing (some o) (some .inf) (some (.num 0)) = .ok p) ∧
    (∃ p, destinationFromBearing (some o) (some .ninf) (some (.num 0)) = .ok p) := by
  refine ⟨rfl, rfl, ?_, ?_, ?_, ?_, ?_, ?_⟩
  · rw [destinationFromBearing.eq_def]
    simp [RNum.isNaN]
  · rw [destinationFromBearing.eq_def]
    simp [RNum.isNaN]
  · rw [destinationFromBearing.eq_def]
    simp [RNum.isNaN]
  · intro hx
    rw [destinationFromBearing.eq_def]
    simp only [RNum.isNaN, Bool.false_eq_true, if_false]
    rw [if_pos]
    exact hx
  · rw [destinationFromBearing.eq_def]
    simp only [RNum.isNaN, Bool.false_eq_true, if_false]
    rw [if_neg]
    · exact ⟨_, rfl⟩
    · exact lt_irrefl 0
  · rw [destinationFromBearing.eq_def]
    simp only [RNum.isNaN, Bool.false_eq_true, if_false]
    rw [if_neg]
    · exact ⟨_, rfl⟩
    · exact lt_irrefl 0

/-- Witness for C3's theorem at concrete inputs: a negative distance is
rejected with `InvalidArgument`. -/
theorem destinationFromBearing_error_cases_witness :
    destinationFromBearing (some ⟨0, 0⟩) (some (RNum.num 0)) (some (RNum.num (-1))) =
      .error .invalidArgument :=
  (destinationFromBearing_error_cases ⟨0, 0⟩ none none 0 (-1)).2.2.2.2.2.1 (by norm_num)

/-- The argument of `Math.asin` in `destinationFromBearing` always lies in
`[-1, 1]`. -/
theorem trig_combo_mem (u v w : ℝ) :
    -1 ≤ Real.sin u * Real.cos v + Real.cos u * Real.sin v * Real.cos w ∧
    Real.sin u * Real.cos v + Real.cos u * Real.sin v * Real.cos w ≤ 1 := by
  have hu := Real.sin_sq_add_cos_sq u
  have hv := Real.sin_sq_add_cos_sq v
  have hw1 := Real.neg_one_le_cos w
  have hw2 := Real.cos_le_one w
  have h1cw : (0 : ℝ) ≤ Real.cos u ^ 2 * ((1 - Real.cos w) * (1 + Real.cos w)) :=
    mul_nonneg (sq_nonneg _) (mul_nonneg (by linarith) (by linarith))
  have huv : (Real.sin u ^ 2 + Real.cos u ^ 2) * (Real.sin v ^ 2 + Real.cos v ^ 2) = 1 := by
    rw [hu, hv]; norm_num
  have hsq : (Real.sin u * Real.cos v + Real.cos u * Real.sin v * Real.cos w) ^ 2 ≤ 1 := by
    nlinarith [sq_nonneg (Real.sin u * Real.sin v - Real.cos u * Real.cos v * Real.cos w),
      h1cw, huv]
  constructor
  · nlinarith [sq_nonneg (Real.sin u * Real.cos v + Real.cos u * Real.sin v * Real.cos w + 1)]
  · nlinarith [sq_nonneg (Real.sin u * Real.cos v + Real.cos u * Real.sin v * Real.cos w - 1)]

/-- C4 (amended): for a valid origin, finite bearing and non-negative
distance, the result longitude is `normalizeLongitude` of the raw
longitude — `((lng + 540) % 360) - 180` with the JavaScript remainder —
and lies in the half-open interval `[-180, 180)` (the lower end `-180` is
attainable, `180` is not). -/
theorem destinationFromBearing_lng_range (o : GeoPosition) (β δ : ℝ)
    (hlat1 : -90 ≤ o.lat) (hlat2 : o.lat ≤ 90)
    (hlng1 : -180 ≤ o.lng) (hlng2 : o.lng ≤ 180) (hδ : 0 ≤ δ) :
    ∃ p, destinationFromBearing (some o) (some (.num β)) (some (.num δ)) = .ok p ∧
      ∃ raw, p.lng = .num (normalizeLongitude raw) ∧
        -180 ≤ normalizeLongitude raw ∧ normalizeLongitude raw < 180 := by
  have hpi := Real.pi_pos
  have hE := trig_combo_mem (GeoMath.toRadians o.lat) (δ / EARTH_RADIUS_METERS)
    (GeoMath.toRadians β)
  have hER : (EARTH_RADIUS_METERS : ℝ) ≠ 0 := by rw [EARTH_RADIUS_METERS]; norm_num
  have hbound : ∀ t : ℝ, -Real.pi ≤ t → t ≤ Real.pi →
      -180 ≤ normalizeLongitude (toDegrees (GeoMath.toRadians o.lng + t)) ∧
      normalizeLongitude (toDegrees (GeoMath.toRadians o.lng + t)) < 180 := by
    intro t ht1 ht2
    have hlo1 : -Real.pi ≤ GeoMath.toRadians o.lng := by
      rw [GeoMath.toRadians]
      nlinarith
    apply normalizeLongitude_mem
    rw [toDegrees, le_div_iff₀ hpi]
    nlinarith
  rw [destinationFromBearing.eq_def]
  simp only [RNum.isNaN, Bool.false_eq_true, if_false]
  rw [if_neg (show ¬ (RNum.num δ).negative from not_lt.mpr hδ)]
  simp only [rdiv_num _ hER, toRadiansN_num, toDegreesN_num, rsin_num, rcos_num,
    rmul_num, radd_num, rsub_num, ratan2_num, normalizeLongitudeN_num,
    rasin_num hE.1 hE.2]
  refine ⟨_, rfl, _, rfl, ?_, ?_⟩
  · exact (hbound _ (jsAtan2_mem _ _).1 (jsAtan2_mem _ _).2).1
  · exact (hbound _ (jsAtan2_mem _ _).1 (jsAtan2_mem _ _).2).2

/-- Witness for C4's theorem at a concrete valid input. -/
theorem destinationFromBearing_lng_range_witness :
    ∃ p, destinationFromBearing (some ⟨0, 0⟩) (some (.num 0)) (some (.num 0)) = .ok p ∧
      ∃ raw, p.lng = .num (normalizeLongitude raw) ∧
        -180 ≤ normalizeLongitude raw ∧ normalizeLongitude raw < 180 :=
  destinationFromBearing_lng_range ⟨0, 0⟩ 0 0 (by norm_num) (by norm_num) (by norm_num)
    (by norm_num) (by norm_num)

/-- C4 counterexample: from origin `(0, -180)` with bearing `0` and
distance `0` the returned longitude is exactly `-180`, which lies outside
the claimed interval `(-180, 180]`. -/
theorem destinationFromBearing_boundary :
    destinationFromBearing (some ⟨0, -180⟩) (some (.num 0)) (some (.num 0)) =
      .ok ⟨.num 0, .num (-180)⟩ ∧ ¬ ((-180 : ℝ) ∈ Set.Ioc (-180 : ℝ) 180) := by
  have hER : (EARTH_RADIUS_METERS : ℝ) ≠ 0 := by rw [EARTH_RADIUS_METERS]; norm_num
  have h0 : GeoMath.toRadians (0 : ℝ) = 0 := by rw [GeoMath.toRadians]; ring
  have h180 : GeoMath.toRadians (-180 : ℝ) = -Real.pi := by rw [GeoMath.toRadians]; ring
  have hdeg : toDegrees (-Real.pi) = -180 := by
    rw [toDegrees]
    field_simp
    ring
  have hdeg0 : toDegrees (0 : ℝ) = 0 := by rw [toDegrees]; ring
  have hnl : normalizeLongitude (-180 : ℝ) = -180 := by
    have ht : jsTruncR ((-180 + 540) / 360 : ℝ) = 1 := by
      rw [jsTruncR, if_pos (by norm_num : (0 : ℝ) ≤ (-180 + 540) / 360)]
      norm_num
    rw [normalizeLongitude, jsRemR, ht]
    norm_num
  constructor
  · rw [destinationFromBearing.eq_def]
    simp only [RNum.isNaN, Bool.false_eq_true, if_false]
    rw [if_neg (show ¬ (RNum.num (0 : ℝ)).negative from not_lt.mpr le_rfl)]
    simp only [rdiv_num _ hER, toRadiansN_num, toDegreesN_num, rsin_num, rcos_num,
      rmul_num, radd_num, rsub_num, ratan2_num, normalizeLongitudeN_num]
    norm_num [h0, h180, Real.sin_zero, Real.cos_zero,
      rasin_num (show (-1 : ℝ) ≤ 0 by norm_num) (show (0 : ℝ) ≤ 1 by norm_num),
      Real.arcsin_zero, jsAtan2_zero_one]
    refine ⟨?_, ?_⟩
    · rw [toDegreesN_num, hdeg0]
    · rw [toDegreesN_num, hdeg, normalizeLongitudeN_num, hnl]
  · simp

/-- C3 counterexample: an infinite bearing is not a finite number, yet the
call succeeds with a position instead of the typed failure the claim
promises. -/
theorem destinationFromBearing_infinite_bearing_accepted :
    ∃ p, destinationFromBearing (some ⟨0, 0⟩) (some .inf) (some (.num 0)) = .ok p := by
  rw [destinationFromBearing.eq_def]
  simp only [RNum.isNaN, Bool.false_eq_true, if_false]
  rw [if_neg]
  · exact ⟨_, rfl⟩
  · exact lt_irrefl 0

/-- `normaliseGridDigits` can only throw `InvalidFormat`. -/
theorem normaliseGridDigits_error_eq {v : Option (List Char)} {p : ℚ} {e : GeoErr}
    (h : normaliseGridDigits v p = .error e) : e = .invalidFormat := by
  cases v with
  | none => simp [normaliseGridDigits] at h
  | some s =>
    rw [normaliseGridDigits] at h
    split at h
    · simp at h
    · split at h
      · simp only [Except.error.injEq] at h
        exact h.symm
      · split at h
        · simp only [Except.error.injEq] at h
          exact h.symm
        · simp at h

/-- C5 (amended): the effective precision of `gridReferenceToLatLng` is
resolved explicit argument → origin reference's precision → target
reference's precision → default 3, while `latLngToGridReference` resolves
explicit argument → origin reference's precision → default 3; in both
functions a resolved value other than 3 or 4 fails `InvalidPrecision`,
and a resolved value of 3 or 4 never produces that failure. -/
theorem precisionResolution_characterization :
    (∀ p oP tP : Option ℚ, gridResolvePrecision p oP tP =
        (match p, oP, tP with
         | some v, _, _ => v
         | none, some v, _ => v
         | none, none, some v => v
         | none, none, none => 3)) ∧
    (∀ p oP : Option ℚ, latLngResolvePrecision p oP =
        (match p, oP with
         | some v, _ => v
         | none, some v => v
         | none, none => 3)) ∧
    (∀ q : ℚ, clampPrecision q = .error .invalidPrecision ↔ (q ≠ 3 ∧ q ≠ 4)) ∧
    (∀ o oRef tRef p,
      clampPrecision (gridResolvePrecision p (GridReference.precision oRef)
          (tRef.bind GridReference.precision)) = .error .invalidPrecision →
        gridReferenceToLatLng (some o) (some oRef) tRef p = .error .invalidPrecision) ∧
    (∀ o oRef tRef p r,
      clampPrecision (gridResolvePrecision p (GridReference.precision oRef)
          (tRef.bind GridReference.precision)) = .ok r →
        gridReferenceToLatLng (some o) (some oRef) tRef p ≠ .error .invalidPrecision) ∧
    (∀ o oRef point p,
      clampPrecision (latLngResolvePrecision p (NumericGridReference.precision oRef)) =
          .error .invalidPrecision →
        latLngToGridReference (some o) (some oRef) point p = .error .invalidPrecision) ∧
    (∀ o oRef point p r,
      clampPrecision (latLngResolvePrecision p (NumericGridReference.precision oRef)) =
          .ok r →
        latLngToGridReference (some o) (some oRef) point p ≠ .error .invalidPrecision) := by
  refine ⟨?_, ?_, ?_, ?_, ?_, ?_, ?_⟩
  · intro p oP tP
    cases p <;> cases oP <;> cases tP <;> rfl
  · intro p oP
    cases p <;> cases oP <;> rfl
  · intro q
    rw [clampPrecision]
    constructor
    · intro h
      split at h
      · simp at h
      · rename_i hq
        push_neg at hq
        exact hq
    · intro ⟨h3, h4⟩
      rw [if_neg]
      simp [h3, h4]
  · intro o oRef tRef p h
    rw [gridReferenceToLatLng.eq_def]
    simp only [h]
  · intro o oRef tRef p r h
    have hr : r = 3 ∨ r = 4 := by
      rw [clampPrecision] at h
      split at h
      · rename_i hq
        simp only [Except.ok.injEq] at h
        rw [← h]
        exact hq
      · simp at h
    rw [gridReferenceToLatLng.eq_def]
    simp only [h]
    split
    · rename_i e he
      simp [normaliseGridDigits_error_eq he]
    · split
      · rename_i e he
        simp [normaliseGridDigits_error_eq he]
      · split
        · simp
        · split
          · rename_i e he
            simp [normaliseGridDigits_error_eq he]
          · split
            · rename_i e he
              simp [normaliseGridDigits_error_eq he]
            · have hu : precisionToUnitMeters r = .ok (if r = 3 then 100 else 10) := by
                rw [precisionToUnitMeters, clampPrecision, if_pos hr]
              rw [hu]
              simp
  · intro o oRef point p h
    rw [latLngToGridReference.eq_def]
    simp only [h]
  · intro o oRef point p r h
    have hr : r = 3 ∨ r = 4 := by
      rw [clampPrecision] at h
      split at h
      · rename_i hq
        simp only [Except.ok.injEq] at h
        rw [← h]
        exact hq
      · simp at h
    rw [latLngToGridReference.eq_def]
    simp only [h]
    have hu : precisionToUnitMeters r = .ok (if r = 3 then 100 else 10) := by
      rw [precisionToUnitMeters, clampPrecision, if_pos hr]
    rw [hu]
    simp

/-- Witness for C5's theorem: a stored origin-reference precision of 5 is
rejected with `InvalidPrecision` by `gridReferenceToLatLng`. -/
theorem precisionResolution_characterization_witness :
    gridReferenceToLatLng (some ⟨0, 0⟩) (some ⟨none, none, some 5⟩) none none =
      .error .invalidPrecision :=
  precisionResolution_characterization.2.2.2.1 ⟨0, 0⟩ ⟨none, none, some 5⟩ none none rfl

/-- C5 counterexample: with no explicit precision and no origin-reference
precision, `gridReferenceToLatLng` resolves the precision from the target
reference (here 4) instead of the claimed default 3, observably accepting
4-digit references. -/
theorem gridPrecision_uses_targetReference :
    gridResolvePrecision none none (some 4) = 4 ∧
    latLngResolvePrecision none none = 3 ∧
    (gridReferenceToLatLng (some ⟨0, 0⟩)
      (some ⟨some "0001".toList, some "0002".toList, none⟩)
      (some ⟨some "0003".toList, some "0004".toList, some 4⟩) none).isOk = true := by
  have hclamp : clampPrecision (gridResolvePrecision none none
      ((some (⟨some "0003".toList, some "0004".toList, some 4⟩ : GridReference)).bind
        GridReference.precision)) = .ok 4 := rfl
  have h1 : normaliseGridDigits (some "0001".toList) 4 = .ok (some 1) := rfl
  have h2 : normaliseGridDigits (some "0002".toList) 4 = .ok (some 2) := rfl
  have h3 : normaliseGridDigits (some "0003".toList) 4 = .ok (some 3) := rfl
  have h4 : normaliseGridDigits (some "0004".toList) 4 = .ok (some 4) := rfl
  refine ⟨rfl, rfl, ?_⟩
  rw [gridReferenceToLatLng.eq_def]
  simp only [hclamp, h1, h2, h3, h4]
  rfl

/-- C6 (amended): `normaliseGridDigits` first trims its input; a null or
(after trimming) empty value yields an absent result rather than a
failure; otherwise a trimmed digit-only string whose length equals the
precision yields its integer value and anything else fails
`InvalidFormat`. -/
theorem normaliseGridDigits_characterization (s : List Char) (p : ℚ) :
    (normaliseGridDigits none p = .ok none) ∧
    (jsTrim s = [] → normaliseGridDigits (some s) p = .ok none) ∧
    (jsTrim s ≠ [] → ¬ (jsTrim s).all Char.isDigit →
      normaliseGridDigits (some s) p = .error .invalidFormat) ∧
    (jsTrim s ≠ [] → (jsTrim s).all Char.isDigit → ((jsTrim s).length : ℚ) ≠ p →
      normaliseGridDigits (some s) p = .error .invalidFormat) ∧
    (jsTrim s ≠ [] → (jsTrim s).all Char.isDigit → ((jsTrim s).length : ℚ) = p →
      normaliseGridDigits (some s) p = .ok (some (natOfDigits (jsTrim s)))) := by
  refine ⟨rfl, ?_, ?_, ?_, ?_⟩
  · intro h1
    simp only [normaliseGridDigits]
    rw [if_pos h1]
  · intro h1 h2
    simp only [normaliseGridDigits]
    rw [if_neg h1, if_pos h2]
  · intro h1 h2 h3
    simp only [normaliseGridDigits]
    rw [if_neg h1, if_neg (not_not_intro h2), if_pos h3]
  · intro h1 h2 h3
    simp only [normaliseGridDigits]
    rw [if_neg h1, if_neg (not_not_intro h2), if_neg (not_not_intro h3)]

/-- Witness for C6's theorem: `parseDigits("12a", 3)` fails
`InvalidFormat` because of the non-digit character. -/
theorem normaliseGridDigits_characterization_witness :
    normaliseGridDigits (some "12a".toList) 3 = .error .invalidFormat :=
  (normaliseGridDigits_characterization "12a".toList 3).2.2.1 (by decide) (by decide)

/-- C6 counterexample: the empty string has the wrong length (0 ≠ 3) yet
`normaliseGridDigits` returns an absent value instead of the
`InvalidFormat` failure the claim demands; a string with surrounding
whitespace is likewise accepted after trimming. -/
theorem normaliseGridDigits_empty_string :
    normaliseGridDigits (some []) 3 = .ok none ∧ (([] : List Char).length : ℚ) ≠ 3 ∧
    normaliseGridDigits (some " 123".toList) 3 = .ok (some 123) := by
  refine ⟨rfl, by norm_num, rfl⟩

section LocationCodes

open CadetMap.RouteUtils

/-- `normalisePosition` returns an absent result exactly when the input is
not a truthy object, a coordinate does not convert to a finite number, or
a converted coordinate is out of range. -/
theorem normalisePosition_eq_none_iff (v : JVal) :
    normalisePosition v = none ↔
      ¬ ∃ la ln, v.truthy ∧ v.isObjectType ∧
        jsToNumber (v.getField "lat".toList) = .num la ∧
        jsToNumber (v.getField "lng".toList) = .num ln ∧
        -90 ≤ la ∧ la ≤ 90 ∧ -180 ≤ ln ∧ ln ≤ 180 := by
  rw [normalisePosition]
  split
  · rename_i hto
    refine iff_of_true rfl ?_
    rintro ⟨la, ln, ht, ho, -, -, -, -, -, -⟩
    rcases hto with h | h
    · exact h ht
    · exact h ho
  · rename_i hto
    push_neg at hto
    split
    · rename_i la ln hla hln
      by_cases hrange : (la < -90 ∨ la > 90 ∨ ln < -180 ∨ ln > 180)
      · rw [if_pos hrange]
        refine iff_of_true rfl ?_
        rintro ⟨la', ln', -, -, hla', hln', hb1, hb2, hb3, hb4⟩
        rw [hla] at hla'
        rw [hln] at hln'
        injection hla' with e1
        injection hln' with e2
        subst e1
        subst e2
        rcases hrange with h | h | h | h <;> linarith
      · rw [if_neg hrange]
        push_neg at hrange
        refine iff_of_false (by simp) ?_
        intro hne
        exact hne ⟨la, ln, hto.1, hto.2, hla, hln, hrange.1, hrange.2.1,
          hrange.2.2.1, hrange.2.2.2⟩
    · rename_i hcatch
      refine iff_of_true rfl ?_
      rintro ⟨la, ln, -, -, hla, hln, -, -, -, -⟩
      exact hcatch la ln hla hln

/-- C10 (amended): for every precision in `[1, 12]`, `encodeLocationCode`
never throws, and returns an absent result exactly when position
validation fails — i.e. when the position is not a truthy object, a
coordinate does not convert (via `Number`) to a finite number, or a
converted coordinate is out of range.  A `null` coordinate converts to `0`
and is therefore accepted. -/
theorem encodeLocationCode_absent_characterization (pos : JVal) (p : ℚ)
    (h1 : 1 ≤ p) (h2 : p ≤ 12) :
    (∃ r, encodeLocationCode pos p = .ok r) ∧
    (encodeLocationCode pos p = .ok none ↔ normalisePosition pos = none) ∧
    (normalisePosition pos = none ↔
      ¬ ∃ la ln, pos.truthy ∧ pos.isObjectType ∧
        jsToNumber (pos.getField "lat".toList) = .num la ∧
        jsToNumber (pos.getField "lng".toList) = .num ln ∧
        -90 ≤ la ∧ la ≤ 90 ∧ -180 ≤ ln ∧ ln ≤ 180) := by
  have hguard : ¬ (p < 1 ∨ p > 12) := by
    push_neg
    exact ⟨not_lt.mp (not_lt.mpr h1), h2⟩
  refine ⟨?_, ?_, normalisePosition_eq_none_iff pos⟩
  · rw [encodeLocationCode, if_neg hguard]
    cases hnp : normalisePosition pos with
    | none => exact ⟨none, rfl⟩
    | some q => exact ⟨_, rfl⟩
  · rw [encodeLocationCode, if_neg hguard]
    cases hnp : normalisePosition pos with
    | none => simp
    | some q => simp

/-- Witness for C10's theorem: a missing position yields an absent result
at precision 9. -/
theorem encodeLocationCode_absent_characterization_witness :
    encodeLocationCode JVal.jsUndefined 9 = Except.ok none :=
  (encodeLocationCode_absent_characterization JVal.jsUndefined 9 (by norm_num)
    (by norm_num)).2.1.mpr rfl

/-- C10 counterexample: a position whose latitude is `null` — a non-numeric
value — is not rejected: `Number(null)` is `0`, so the position encodes to
a real location code instead of the absent result the claim demands. -/
theorem encodeLocationCode_null_coordinate :
    jsToNumber JVal.null = .num 0 ∧
    encodeLocationCode (JVal.obj [("lat".toList, JVal.null), ("lng".toList, JVal.num 0)]) 9 =
      .ok (some "s00000000".toList) := by
  constructor
  · rfl
  · with_unfolding_all rfl

/-- C2: `decodeRouteShare` never throws — on every input value it returns
either a snapshot or an absent result — and `decode("not-base64!!")` in
particular returns absent.  (Throwing operations inside the decoder are
modelled with explicit failure values; every `catch` in the source maps a
failure to `null`, so the entry point is total into `Option`.) -/
theorem decodeRouteShare_never_throws :
    (∀ v : JVal, decodeRouteShareVal v = none ∨ ∃ s, decodeRouteShareVal v = some s) ∧
    decodeRouteShare "not-base64!!".toList = none := by
  constructor
  · intro v
    cases h : decodeRouteShareVal v with
    | none => exact .inl rfl
    | some s => exact .inr ⟨s, rfl⟩
  · with_unfolding_all rfl

/-! ### Route-share decode invariants (C9) -/

/-- The Position invariant: coordinates in range and rounded to 1e-6°. -/
def ValidPos (p : Position) : Prop :=
  -90 ≤ p.lat ∧ p.lat ≤ 90 ∧ -180 ≤ p.lng ∧ p.lng ≤ 180 ∧
  RouteUtils.clampPrecision p.lat = p.lat ∧ RouteUtils.clampPrecision p.lng = p.lng

/-- Every position of the snapshot satisfies the Position invariant. -/
def ValidSnapshot (T : RouteSnapshot) : Prop :=
  (∀ p, T.start = some p → ValidPos p) ∧
  (∀ p, T.endPos = some p → ValidPos p) ∧
  (∀ p ∈ T.checkpoints, ValidPos p)

theorem jsRound_intCast (z : ℤ) : jsRound (z : ℚ) = z := by
  rw [jsRound, Int.floor_int_add]
  norm_num

theorem jsRound_le {q : ℚ} {n : ℤ} (h : q ≤ n) : jsRound q ≤ n := by
  rw [jsRound]
  have : (⌊q + 1 / 2⌋ : ℤ) ≤ ⌊(n : ℚ) + 1 / 2⌋ :=
    Int.floor_le_floor (add_le_add_right h _)
  rwa [Int.floor_int_add, show ⌊(1 : ℚ) / 2⌋ = 0 by norm_num, add_zero] at this

theorem le_jsRound {q : ℚ} {n : ℤ} (h : (n : ℚ) ≤ q) : n ≤ jsRound q := by
  rw [jsRound]
  have : (⌊(n : ℚ) + 1 / 2⌋ : ℤ) ≤ ⌊q + 1 / 2⌋ :=
    Int.floor_le_floor (add_le_add_right h _)
  rwa [Int.floor_int_add, show ⌊(1 : ℚ) / 2⌋ = 0 by norm_num, add_zero] at this

/-- `clampPrecision` keeps a coordinate inside symmetric integer-scaled
bounds. -/
theorem clampPrecision_mem {q B : ℚ} {n : ℤ} (hn : (n : ℚ) = B * 1000000)
    (h1 : -B ≤ q) (h2 : q ≤ B) :
    -B ≤ RouteUtils.clampPrecision q ∧ RouteUtils.clampPrecision q ≤ B := by
  rw [RouteUtils.clampPrecision]
  have hu : jsRound (q * 1000000) ≤ n := by
    apply jsRound_le
    rw [hn]
    exact mul_le_mul_of_nonneg_right h2 (by norm_num)
  have hl : -n ≤ jsRound (q * 1000000) := by
    apply le_jsRound
    push_cast
    rw [hn]
    have := mul_le_mul_of_nonneg_right h1 (show (0 : ℚ) ≤ 1000000 by norm_num)
    linarith [this]
  constructor
  · rw [le_div_iff₀ (show (0 : ℚ) < 1000000 by norm_num)]
    calc -B * 1000000 = -(B * 1000000) := by ring
    _ = ((-n : ℤ) : ℚ) := by push_cast; rw [hn]
    _ ≤ (jsRound (q * 1000000) : ℚ) := by exact_mod_cast hl
  · rw [div_le_iff₀ (show (0 : ℚ) < 1000000 by norm_num)]
    calc (jsRound (q * 1000000) : ℚ) ≤ (n : ℚ) := by exact_mod_cast hu
    _ = B * 1000000 := hn

/-- `clampPrecision` is idempotent. -/
theorem clampPrecision_idem (q : ℚ) :
    RouteUtils.clampPrecision (RouteUtils.clampPrecision q) = RouteUtils.clampPrecision q := by
  rw [RouteUtils.clampPrecision, RouteUtils.clampPrecision,
    div_mul_cancel₀ _ (show (1000000 : ℚ) ≠ 0 by norm_num), jsRound_intCast]

/-- A position accepted by `normalisePosition` satisfies the invariant. -/
theorem normalisePosition_valid {v : JVal} {p : Position}
    (h : normalisePosition v = some p) : ValidPos p := by
  rw [normalisePosition] at h
  split at h
  · simp at h
  · split at h
    · rename_i la ln hla hln
      split at h
      · simp at h
      · rename_i hrange
        push_neg at hrange
        injection h with h
        subst h
        have hlat := clampPrecision_mem (B := 90) (n := 90000000) (by norm_num)
          hrange.1 hrange.2.1
        have hlng := clampPrecision_mem (B := 180) (n := 180000000) (by norm_num)
          hrange.2.2.1 hrange.2.2.2
        exact ⟨hlat.1, hlat.2, hlng.1, hlng.2, clampPrecision_idem la, clampPrecision_idem ln⟩
    · simp at h

/-- The snapshot structure built by `normaliseRouteShareSnapshot` is valid
whatever the version and connect mode. -/
theorem structSnapshot_valid (v : JVal) (ver : ℚ) (cvia : ConnectVia) :
    ValidSnapshot ⟨ver, cvia, normalisePosition (v.getField "start".toList),
      normalisePosition (v.getField "end".toList),
      (match v.getField "checkpoints".toList with
       | .arr xs => (xs.map normalisePosition).filterMap id
       | _ => [])⟩ := by
  refine ⟨?_, ?_, ?_⟩
  · intro p hp
    exact normalisePosition_valid hp
  · intro p hp
    exact normalisePosition_valid hp
  · intro p
    show p ∈ (match v.getField "checkpoints".toList with
      | .arr xs => (xs.map normalisePosition).filterMap id
      | _ => ([] : List Position)) → ValidPos p
    cases v.getField "checkpoints".toList with
    | arr xs =>
      intro hp
      rw [List.mem_filterMap] at hp
      obtain ⟨op, hop, hid⟩ := hp
      rw [List.mem_map] at hop
      obtain ⟨x, -, hx⟩ := hop
      simp only [id_eq] at hid
      exact normalisePosition_valid (hx.trans hid)
    | jsUndefined => intro hp; simp at hp
    | null => intro hp; simp at hp
    | bool b => intro hp; simp at hp
    | num q => intro hp; simp at hp
    | str s => intro hp; simp at hp
    | obj fs => intro hp; simp at hp

/-- Every snapshot produced by `normaliseRouteShareSnapshot` satisfies the
invariant. -/
theorem normaliseRouteShareSnapshot_valid {v : JVal} {T : RouteSnapshot}
    (h : normaliseRouteShareSnapshot v = some T) : ValidSnapshot T := by
  rw [normaliseRouteShareSnapshot] at h
  split at h
  · simp at h
  · split at h
    · rename_i q hq
      by_cases hv : q ≠ ROUTE_SHARE_VERSION
      · rw [if_pos hv] at h
        simp at h
      · rw [if_neg hv] at h
        injection h with h
        subst h
        exact structSnapshot_valid v q _
    · rw [if_neg (by simp)] at h
      injection h with h
      subst h
      exact structSnapshot_valid v ROUTE_SHARE_VERSION _

/-- Every non-absent `decodeRouteShare` result passed through
`normaliseRouteShareSnapshot`. -/
theorem decodeRouteShare_some_normalised {code : List Char} {T : RouteSnapshot}
    (h : decodeRouteShare code = some T) :
    ∃ v, normaliseRouteShareSnapshot v = some T := by
  rw [decodeRouteShare] at h
  split at h
  · simp at h
  · split at h
    · exact ⟨_, h⟩
    · split at h
      · simp at h
      · split at h
        · simp at h
        · exact ⟨_, h⟩

/-- C9: every non-absent result of `decodeRouteShare` satisfies the
Position invariant (coordinates in range, rounded to 1e-6°); and a
well-formed binary code whose payload holds out-of-range coordinates still
decodes, with the out-of-range start dropped to absent and the
out-of-range checkpoint removed. -/
theorem decodeRouteShare_position_invariant :
    (∀ (code : List Char) (T : RouteSnapshot),
      decodeRouteShare code = some T → ValidSnapshot T) ∧
    decodeRouteShare (Base64.toBase64Url ([1, 3, 0, 0, 2] ++
        writeCoordinate ⟨91, 0⟩ ++ writeCoordinate ⟨45.5, -75.25⟩ ++
        writeCoordinate ⟨10, 181⟩ ++ writeCoordinate ⟨-33.9, 18.4⟩)) =
      some ⟨1, .direct, none, some ⟨-33.9, 18.4⟩, [⟨45.5, -75.25⟩]⟩ := by
  constructor
  · intro code T h
    obtain ⟨v, hv⟩ := decodeRouteShare_some_normalised h
    exact normaliseRouteShareSnapshot_valid hv
  · with_unfolding_all rfl

/-- Witness for C9's theorem: the invariant at the concretely decoded
snapshot. -/
theorem decodeRouteShare_position_invariant_witness :
    ValidSnapshot ⟨1, .direct, none, some ⟨-33.9, 18.4⟩, [⟨45.5, -75.25⟩]⟩ :=
  decodeRouteShare_position_invariant.1 _ _ decodeRouteShare_position_invariant.2

end LocationCodes

namespace Geohash

open CadetMap.RouteUtils

/-- Decoding retraces one encoding bit. -/
theorem decGeoStep_encGeoStep (pos : Position) (st : GeoBox) :
    decGeoStep (encGeoStep pos st).1 st = (encGeoStep pos st).2 := by
  by_cases he : st.evenBit = true <;>
    simp only [encGeoStep, decGeoStep, he, if_true, Bool.false_eq_true, if_false] <;>
    split <;> rfl

/-- `decGeoChar` with a five-mask character index replays the five bits. -/
theorem decGeoChar_bits (b1 b2 b3 b4 b5 : Bool) (t : GeoBox) :
    decGeoChar (((((0 ||| (if b1 then 16 else 0)) ||| (if b2 then 8 else 0)) |||
        (if b3 then 4 else 0)) ||| (if b4 then 2 else 0)) ||| (if b5 then 1 else 0)) t =
      decGeoStep b5 (decGeoStep b4 (decGeoStep b3 (decGeoStep b2 (decGeoStep b1 t)))) := by
  rcases b1 <;> rcases b2 <;> rcases b3 <;> rcases b4 <;> rcases b5 <;> rfl

/-- Decoding one encoded character retraces the encoder's box. -/
theorem decGeoChar_encGeoChar (pos : Position) (st : GeoBox) :
    decGeoChar (encGeoChar pos st).1 st = (encGeoChar pos st).2 := by
  simp only [encGeoChar]
  rw [decGeoChar_bits]
  simp only [decGeoStep_encGeoStep]

/-- Character indices produced by the encoder are below 32. -/
theorem encGeoChar_lt (pos : Position) (st : GeoBox) : (encGeoChar pos st).1 < 32 := by
  simp only [encGeoChar]
  have : ∀ b1 b2 b3 b4 b5 : Bool,
      ((((0 ||| (if b1 then 16 else 0)) ||| (if b2 then 8 else 0)) |||
        (if b3 then 4 else 0)) ||| (if b4 then 2 else 0)) ||| (if b5 then 1 else 0) < 32 := by
    decide
  exact this _ _ _ _ _

/-- Looking an alphabet character back up recovers its index. -/
theorem alphabet_roundtrip : ∀ c < 32,
    GEOHASH_BASE32.findIdx? (fun x => x = (GEOHASH_BASE32.getD c ' ').toLower) = some c := by
  decide

/-- The final box of the encoding loop. -/
def encGeoFinal (pos : Position) : ℕ → GeoBox → GeoBox
  | 0, st => st
  | n + 1, st => encGeoFinal pos n (encGeoChar pos st).2

theorem encGeoChars_length (pos : Position) :
    ∀ (n : ℕ) (st : GeoBox), (encGeoChars pos n st).length = n := by
  intro n
  induction n with
  | zero => intro st; rfl
  | succ k ih =>
    intro st
    simp only [encGeoChars, List.length_cons, ih]

/-- Decoding the encoder's characters retraces the whole bisection. -/
theorem decGeoChars_encGeoChars (pos : Position) :
    ∀ (n : ℕ) (st : GeoBox),
      decGeoChars ((encGeoChars pos n st).map (fun c => GEOHASH_BASE32.getD c ' ')) st =
        some (encGeoFinal pos n st) := by
  intro n
  induction n with
  | zero => intro st; rfl
  | succ k ih =>
    intro st
    simp only [encGeoChars, List.map_cons, decGeoChars]
    rw [alphabet_roundtrip _ (encGeoChar_lt pos st)]
    show decGeoChars (List.map (fun c => GEOHASH_BASE32.getD c ' ')
        (encGeoChars pos k (encGeoChar pos st).2)) (decGeoChar (encGeoChar pos st).1 st) =
      some (encGeoFinal pos (k + 1) st)
    rw [decGeoChar_encGeoChar]
    exact ih _

/-- The position stays inside the box through one bit. -/
theorem encGeoStep_inBox {pos : Position} {st : GeoBox}
    (h : st.minLat ≤ pos.lat ∧ pos.lat ≤ st.maxLat ∧
         st.minLng ≤ pos.lng ∧ pos.lng ≤ st.maxLng) :
    (encGeoStep pos st).2.minLat ≤ pos.lat ∧ pos.lat ≤ (encGeoStep pos st).2.maxLat ∧
    (encGeoStep pos st).2.minLng ≤ pos.lng ∧ pos.lng ≤ (encGeoStep pos st).2.maxLng := by
  obtain ⟨h1, h2, h3, h4⟩ := h
  rw [encGeoStep]
  split
  · split
    · rename_i hc
      exact ⟨h1, h2, hc, h4⟩
    · rename_i hc
      push_neg at hc
      exact ⟨h1, h2, h3, le_of_lt hc⟩
  · split
    · rename_i hc
      exact ⟨hc, h2, h3, h4⟩
    · rename_i hc
      push_neg at hc
      exact ⟨h1, le_of_lt hc, h3, h4⟩

/-- One even bit: the longitude range halves, the latitude range is kept. -/
theorem encGeoStep_true (pos : Position) (st : GeoBox) (he : st.evenBit = true) :
    (encGeoStep pos st).2.evenBit = false ∧
    (encGeoStep pos st).2.minLat = st.minLat ∧
    (encGeoStep pos st).2.maxLat = st.maxLat ∧
    (encGeoStep pos st).2.maxLng - (encGeoStep pos st).2.minLng =
      (st.maxLng - st.minLng) / 2 := by
  rw [encGeoStep, if_pos he]
  split
  · exact ⟨rfl, rfl, rfl, by
      show st.maxLng - (st.minLng + st.maxLng) / 2 = (st.maxLng - st.minLng) / 2
      ring⟩
  · exact ⟨rfl, rfl, rfl, by
      show (st.minLng + st.maxLng) / 2 - st.minLng = (st.maxLng - st.minLng) / 2
      ring⟩

/-- One odd bit: the latitude range halves, the longitude range is kept. -/
theorem encGeoStep_false (pos : Position) (st : GeoBox) (he : st.evenBit = false) :
    (encGeoStep pos st).2.evenBit = true ∧
    (encGeoStep pos st).2.minLng = st.minLng ∧
    (encGeoStep pos st).2.maxLng = st.maxLng ∧
    (encGeoStep pos st).2.maxLat - (encGeoStep pos st).2.minLat =
      (st.maxLat - st.minLat) / 2 := by
  rw [encGeoStep, if_neg (by simp [he])]
  split
  · exact ⟨rfl, rfl, rfl, by
      show st.maxLat - (st.minLat + st.maxLat) / 2 = (st.maxLat - st.minLat) / 2
      ring⟩
  · exact ⟨rfl, rfl, rfl, by
      show (st.minLat + st.maxLat) / 2 - st.minLat = (st.maxLat - st.minLat) / 2
      ring⟩

/-- The position stays inside the box through one character. -/
theorem encGeoChar_inBox {pos : Position} {st : GeoBox}
    (h : st.minLat ≤ pos.lat ∧ pos.lat ≤ st.maxLat ∧
         st.minLng ≤ pos.lng ∧ pos.lng ≤ st.maxLng) :
    (encGeoChar pos st).2.minLat ≤ pos.lat ∧ pos.lat ≤ (encGeoChar pos st).2.maxLat ∧
    (encGeoChar pos st).2.minLng ≤ pos.lng ∧ pos.lng ≤ (encGeoChar pos st).2.maxLng := by
  simp only [encGeoChar]
  exact encGeoStep_inBox (encGeoStep_inBox (encGeoStep_inBox (encGeoStep_inBox
    (encGeoStep_inBox h))))

/-- One character starting on an even bit: longitude range shrinks by 8,
latitude range by 4, parity flips. -/
theorem encGeoChar_true (pos : Position) (st : GeoBox) (he : st.evenBit = true) :
    (encGeoChar pos st).2.evenBit = false ∧
    (encGeoChar pos st).2.maxLng - (encGeoChar pos st).2.minLng =
      (st.maxLng - st.minLng) / 8 ∧
    (encGeoChar pos st).2.maxLat - (encGeoChar pos st).2.minLat =
      (st.maxLat - st.minLat) / 4 := by
  simp only [encGeoChar]
  obtain ⟨e1, a1, b1, w1⟩ := encGeoStep_true pos st he
  obtain ⟨e2, a2, b2, w2⟩ := encGeoStep_false pos _ e1
  obtain ⟨e3, a3, b3, w3⟩ := encGeoStep_true pos _ e2
  obtain ⟨e4, a4, b4, w4⟩ := encGeoStep_false pos _ e3
  obtain ⟨e5, a5, b5, w5⟩ := encGeoStep_true pos _ e4
  refine ⟨e5, ?_, ?_⟩
  · rw [w5, a4, b4, w3, a2, b2, w1]
    ring
  · rw [a5, b5, w4, a3, b3, w2, a1, b1]
    ring

/-- One character starting on an odd bit: latitude range shrinks by 8,
longitude range by 4, parity flips. -/
theorem encGeoChar_false (pos : Position) (st : GeoBox) (he : st.evenBit = false) :
    (encGeoChar pos st).2.evenBit = true ∧
    (encGeoChar pos st).2.maxLng - (encGeoChar pos st).2.minLng =
      (st.maxLng - st.minLng) / 4 ∧
    (encGeoChar pos st).2.maxLat - (encGeoChar pos st).2.minLat =
      (st.maxLat - st.minLat) / 8 := by
  simp only [encGeoChar]
  obtain ⟨e1, a1, b1, w1⟩ := encGeoStep_false pos st he
  obtain ⟨e2, a2, b2, w2⟩ := encGeoStep_true pos _ e1
  obtain ⟨e3, a3, b3, w3⟩ := encGeoStep_false pos _ e2
  obtain ⟨e4, a4, b4, w4⟩ := encGeoStep_true pos _ e3
  obtain ⟨e5, a5, b5, w5⟩ := encGeoStep_false pos _ e4
  refine ⟨e5, ?_, ?_⟩
  · rw [a5, b5, w4, a3, b3, w2, a1, b1]
    ring
  · rw [w5, a4, b4, w3, a2, b2, w1]
    ring

set_option maxRecDepth 4000 in
/-- After nine characters from the initial box the longitude range is
`360/2^23`, the latitude range `180/2^22`, and the point is still inside. -/
theorem encGeoFinal_nine (pos : Position)
    (h : -90 ≤ pos.lat ∧ pos.lat ≤ 90 ∧ -180 ≤ pos.lng ∧ pos.lng ≤ 180) :
    (encGeoFinal pos 9 initialGeoBox).maxLng - (encGeoFinal pos 9 initialGeoBox).minLng =
      360 / 2 ^ 23 ∧
    (encGeoFinal pos 9 initialGeoBox).maxLat - (encGeoFinal pos 9 initialGeoBox).minLat =
      180 / 2 ^ 22 ∧
    (encGeoFinal pos 9 initialGeoBox).minLat ≤ pos.lat ∧
    pos.lat ≤ (encGeoFinal pos 9 initialGeoBox).maxLat ∧
    (encGeoFinal pos 9 initialGeoBox).minLng ≤ pos.lng ∧
    pos.lng ≤ (encGeoFinal pos 9 initialGeoBox).maxLng := by
  have hin0 : initialGeoBox.minLat ≤ pos.lat ∧ pos.lat ≤ initialGeoBox.maxLat ∧
      initialGeoBox.minLng ≤ pos.lng ∧ pos.lng ≤ initialGeoBox.maxLng := by
    exact ⟨h.1, h.2.1, h.2.2.1, h.2.2.2⟩
  obtain ⟨e1, l1, t1⟩ := encGeoChar_true pos initialGeoBox rfl
  obtain ⟨e2, l2, t2⟩ := encGeoChar_false pos _ e1
  obtain ⟨e3, l3, t3⟩ := encGeoChar_true pos _ e2
  obtain ⟨e4, l4, t4⟩ := encGeoChar_false pos _ e3
  obtain ⟨e5, l5, t5⟩ := encGeoChar_true pos _ e4
  obtain ⟨e6, l6, t6⟩ := encGeoChar_false pos _ e5
  obtain ⟨e7, l7, t7⟩ := encGeoChar_true pos _ e6
  obtain ⟨e8, l8, t8⟩ := encGeoChar_false pos _ e7
  obtain ⟨e9, l9, t9⟩ := encGeoChar_true pos _ e8
  have hin := encGeoChar_inBox (encGeoChar_inBox (encGeoChar_inBox (encGeoChar_inBox
    (encGeoChar_inBox (encGeoChar_inBox (encGeoChar_inBox (encGeoChar_inBox
      (encGeoChar_inBox hin0))))))))
  refine ⟨?_, ?_, hin.1, hin.2.1, hin.2.2.1, hin.2.2.2⟩
  · show (encGeoFinal pos 9 initialGeoBox).maxLng - (encGeoFinal pos 9 initialGeoBox).minLng =
      360 / 2 ^ 23
    rw [show encGeoFinal pos 9 initialGeoBox =
      (encGeoChar pos (encGeoChar pos (encGeoChar pos (encGeoChar pos (encGeoChar pos
        (encGeoChar pos (encGeoChar pos (encGeoChar pos (encGeoChar pos
          initialGeoBox).2).2).2).2).2).2).2).2).2 from rfl]
    rw [l9, l8, l7, l6, l5, l4, l3, l2, l1]
    norm_num [initialGeoBox]
  · rw [show encGeoFinal pos 9 initialGeoBox =
      (encGeoChar pos (encGeoChar pos (encGeoChar pos (encGeoChar pos (encGeoChar pos
        (encGeoChar pos (encGeoChar pos (encGeoChar pos (encGeoChar pos
          initialGeoBox).2).2).2).2).2).2).2).2).2 from rfl]
    rw [t9, t8, t7, t6, t5, t4, t3, t2, t1]
    norm_num [initialGeoBox]

/-- `normalisePosition` on a plain `{lat, lng}` object with in-range
coordinates rounds and accepts them. -/
theorem normalisePosition_rawPos {lat lng : ℚ} (h1 : -90 ≤ lat) (h2 : lat ≤ 90)
    (h3 : -180 ≤ lng) (h4 : lng ≤ 180) :
    normalisePosition (rawPosToJVal lat lng) =
      some ⟨RouteUtils.clampPrecision lat, RouteUtils.clampPrecision lng⟩ := by
  rw [normalisePosition]
  rw [if_neg (by simp [rawPosToJVal, JVal.truthy, JVal.isObjectType])]
  have hg1 : (rawPosToJVal lat lng).getField "lat".toList = .num lat := rfl
  have hg2 : (rawPosToJVal lat lng).getField "lng".toList = .num lng := rfl
  rw [hg1, hg2]
  show (if lat < -90 ∨ lat > 90 ∨ lng < -180 ∨ lng > 180 then none
    else some (⟨RouteUtils.clampPrecision lat, RouteUtils.clampPrecision lng⟩ : Position)) = _
  rw [if_neg (by push_neg; exact ⟨h1, h2, h3, h4⟩)]

/-- Rounding to 1e-6° moves a coordinate by at most `5e-7`. -/
theorem clampPrecision_close (q : ℚ) :
    |RouteUtils.clampPrecision q - q| ≤ 1 / 2000000 := by
  rw [RouteUtils.clampPrecision, jsRound]
  have hle := Int.floor_le (q * 1000000 + 1 / 2)
  have hgt := Int.lt_floor_add_one (q * 1000000 + 1 / 2)
  rw [abs_le]
  constructor <;> linarith

end Geohash

section C7Section

open CadetMap.RouteUtils

/-- C7: encoding a valid position at precision 9 and decoding the code
returns a point within half a 9-character geohash cell of the encoded
(rounded) position — `180/2^23 ≈ 2.1e-5°` of latitude and `360/2^24 ≈
2.1e-5°` of longitude — hence within that plus the `5e-7°` rounding of the
original position (≈ 2.4 m in the worst case). -/
theorem locationCode_roundtrip (lat lng : ℚ) (h1 : -90 ≤ lat) (h2 : lat ≤ 90)
    (h3 : -180 ≤ lng) (h4 : lng ≤ 180) :
    ∃ h q, encodeLocationCode (rawPosToJVal lat lng) 9 = .ok (some h) ∧
      decodeLocationCode h = some q ∧
      |q.lat - RouteUtils.clampPrecision lat| ≤ 180 / 2 ^ 23 ∧
      |q.lng - RouteUtils.clampPrecision lng| ≤ 360 / 2 ^ 24 ∧
      |q.lat - lat| ≤ 180 / 2 ^ 23 + 1 / 2000000 ∧
      |q.lng - lng| ≤ 360 / 2 ^ 24 + 1 / 2000000 := by
  have hplat := clampPrecision_mem (B := 90) (n := 90000000) (by norm_num) h1 h2
  have hplng := clampPrecision_mem (B := 180) (n := 180000000) (by norm_num) h3 h4
  obtain ⟨hwLng, hwLat, hbl1, hbl2, hbg1, hbg2⟩ :=
    Geohash.encGeoFinal_nine ⟨RouteUtils.clampPrecision lat, RouteUtils.clampPrecision lng⟩
      ⟨hplat.1, hplat.2, hplng.1, hplng.2⟩
  set P : Position := ⟨RouteUtils.clampPrecision lat, RouteUtils.clampPrecision lng⟩ with hP
  have hclat : |RouteUtils.clampPrecision lat - lat| ≤ 1 / 2000000 :=
    Geohash.clampPrecision_close lat
  have hclng : |RouteUtils.clampPrecision lng - lng| ≤ 1 / 2000000 :=
    Geohash.clampPrecision_close lng
  refine ⟨(encGeoChars P 9 initialGeoBox).map (fun c => GEOHASH_BASE32.getD c ' '),
    ⟨((Geohash.encGeoFinal P 9 initialGeoBox).minLat +
        (Geohash.encGeoFinal P 9 initialGeoBox).maxLat) / 2,
     ((Geohash.encGeoFinal P 9 initialGeoBox).minLng +
        (Geohash.encGeoFinal P 9 initialGeoBox).maxLng) / 2⟩,
    ?_, ?_, ?_, ?_, ?_, ?_⟩
  · rw [encodeLocationCode, if_neg (by norm_num),
      Geohash.normalisePosition_rawPos h1 h2 h3 h4]
    rw [show (⌈(9 : ℚ)⌉.toNat) = 9 from by
      rw [show ⌈(9 : ℚ)⌉ = (9 : ℤ) from by norm_num]
      rfl]
  · rw [decodeLocationCode,
      if_neg (by simp [Geohash.encGeoChars_length]),
      Geohash.decGeoChars_encGeoChars]
  · have : P.lat = RouteUtils.clampPrecision lat := rfl
    rw [abs_le]
    constructor <;> (rw [← this]; linarith)
  · have : P.lng = RouteUtils.clampPrecision lng := rfl
    rw [abs_le]
    constructor <;> (rw [← this]; linarith)
  · have hmid : |(((Geohash.encGeoFinal P 9 initialGeoBox).minLat +
        (Geohash.encGeoFinal P 9 initialGeoBox).maxLat) / 2) - P.lat| ≤ 180 / 2 ^ 23 := by
      rw [abs_le]
      constructor <;> linarith
    calc |(((Geohash.encGeoFinal P 9 initialGeoBox).minLat +
          (Geohash.encGeoFinal P 9 initialGeoBox).maxLat) / 2) - lat| ≤
        |(((Geohash.encGeoFinal P 9 initialGeoBox).minLat +
          (Geohash.encGeoFinal P 9 initialGeoBox).maxLat) / 2) - P.lat| +
        |P.lat - lat| := abs_sub_le _ _ _
    _ ≤ 180 / 2 ^ 23 + 1 / 2000000 := add_le_add hmid hclat
  · have hmid : |(((Geohash.encGeoFinal P 9 initialGeoBox).minLng +
        (Geohash.encGeoFinal P 9 initialGeoBox).maxLng) / 2) - P.lng| ≤ 360 / 2 ^ 24 := by
      rw [abs_le]
      constructor <;> linarith
    calc |(((Geohash.encGeoFinal P 9 initialGeoBox).minLng +
          (Geohash.encGeoFinal P 9 initialGeoBox).maxLng) / 2) - lng| ≤
        |(((Geohash.encGeoFinal P 9 initialGeoBox).minLng +
          (Geohash.encGeoFinal P 9 initialGeoBox).maxLng) / 2) - P.lng| +
        |P.lng - lng| := abs_sub_le _ _ _
    _ ≤ 360 / 2 ^ 24 + 1 / 2000000 := add_le_add hmid hclng

/-- Witness for C7's theorem at the position `(51.5, -0.12)` from the
specification. -/
theorem locationCode_roundtrip_witness :
    ∃ h q, encodeLocationCode (rawPosToJVal 51.5 (-0.12)) 9 = .ok (some h) ∧
      decodeLocationCode h = some q ∧
      |q.lat - RouteUtils.clampPrecision 51.5| ≤ 180 / 2 ^ 23 ∧
      |q.lng - RouteUtils.clampPrecision (-0.12)| ≤ 360 / 2 ^ 24 ∧
      |q.lat - 51.5| ≤ 180 / 2 ^ 23 + 1 / 2000000 ∧
      |q.lng - (-0.12)| ≤ 360 / 2 ^ 24 + 1 / 2000000 :=
  locationCode_roundtrip 51.5 (-0.12) (by norm_num) (by norm_num) (by norm_num)
    (by norm_num)

end C7Section

namespace B64

open CadetMap.Base64

/-- The url-safe character replacement of `toBase64Url`. -/
def fwd (c : Char) : Char := if c = '+' then '-' else if c = '/' then '_' else c

/-- The inverse replacement of `fromBase64Url`. -/
def bwd (c : Char) : Char := if c = '-' then '+' else if c = '_' then '/' else c

theorem toBase64Url_eq (b : List ℕ) :
    toBase64Url b = stripTrailingEquals ((encodeGroups b).map fwd) := rfl

theorem fromBase64Url_eq (code : List Char) :
    fromBase64Url code =
      base64Decode (code.map bwd ++
        (if (code.map bwd).length % 4 = 0 then []
         else List.replicate (4 - (code.map bwd).length % 4) '=')) := by
  rw [fromBase64Url]
  simp only [List.length_map]
  rfl

/-- Facts about the 64 alphabet characters, by enumeration. -/
theorem charOf_spec : ∀ v, v < 64 →
    indexOf (charOf v) = some v ∧ charOf v ≠ '=' ∧ asciiWs (charOf v) = false ∧
    bwd (fwd (charOf v)) = charOf v ∧ jsWsChar (fwd (charOf v)) = false ∧
    fwd (charOf v) ≠ '=' := by decide

/-- The 6-bit indices of the base64 encoding, group by group. -/
def encIdx : List ℕ → List ℕ
  | [] => []
  | [a] => [a / 4, a % 4 * 16]
  | [a, b] => [a / 4, a % 4 * 16 + b / 16, b % 16 * 4]
  | a :: b :: d :: rest =>
    a / 4 :: (a % 4 * 16 + b / 16) :: (b % 16 * 4 + d / 64) :: (d % 64) :: encIdx rest

theorem encodeGroups_eq_map (n : ℕ) : ∀ xs : List ℕ, xs.length = 3 * n →
    encodeGroups xs = (encIdx xs).map charOf := by
  induction n with
  | zero =>
    intro xs h
    rw [Nat.mul_zero, List.length_eq_zero] at h
    subst h
    rfl
  | succ k ih =>
    intro xs h
    rcases xs with _ | ⟨a, _ | ⟨b, _ | ⟨c, rest⟩⟩⟩
    · simp only [List.length_nil] at h; omega
    · simp only [List.length_cons, List.length_nil] at h; omega
    · simp only [List.length_cons, List.length_nil] at h; omega
    · simp only [encodeGroups, encIdx, List.map_cons]
      rw [ih rest (by simp only [List.length_cons] at h; omega)]

theorem encodeGroups_append3 (n : ℕ) : ∀ xs ys : List ℕ, xs.length = 3 * n →
    encodeGroups (xs ++ ys) = encodeGroups xs ++ encodeGroups ys := by
  induction n with
  | zero =>
    intro xs ys h
    rw [Nat.mul_zero, List.length_eq_zero] at h
    subst h
    rfl
  | succ k ih =>
    intro xs ys h
    rcases xs with _ | ⟨a, _ | ⟨b, _ | ⟨c, rest⟩⟩⟩
    · simp only [List.length_nil] at h; omega
    · simp only [List.length_cons, List.length_nil] at h; omega
    · simp only [List.length_cons, List.length_nil] at h; omega
    · simp only [List.cons_append, encodeGroups]
      rw [show rest.append ys = rest ++ ys from rfl,
        ih rest ys (by simp only [List.length_cons] at h; omega)]

theorem encIdx_append3 (n : ℕ) : ∀ xs ys : List ℕ, xs.length = 3 * n →
    encIdx (xs ++ ys) = encIdx xs ++ encIdx ys := by
  induction n with
  | zero =>
    intro xs ys h
    rw [Nat.mul_zero, List.length_eq_zero] at h
    subst h
    rfl
  | succ k ih =>
    intro xs ys h
    rcases xs with _ | ⟨a, _ | ⟨b, _ | ⟨c, rest⟩⟩⟩
    · simp only [List.length_nil] at h; omega
    · simp only [List.length_cons, List.length_nil] at h; omega
    · simp only [List.length_cons, List.length_nil] at h; omega
    · simp only [List.cons_append, encIdx]
      rw [show rest.append ys = rest ++ ys from rfl,
        ih rest ys (by simp only [List.length_cons] at h; omega)]

theorem encIdx_length3 (n : ℕ) : ∀ xs : List ℕ, xs.length = 3 * n →
    (encIdx xs).length = 4 * n := by
  induction n with
  | zero =>
    intro xs h
    rw [Nat.mul_zero, List.length_eq_zero] at h
    subst h
    rfl
  | succ k ih =>
    intro xs h
    rcases xs with _ | ⟨a, _ | ⟨b, _ | ⟨c, rest⟩⟩⟩
    · simp only [List.length_nil] at h; omega
    · simp only [List.length_cons, List.length_nil] at h; omega
    · simp only [List.length_cons, List.length_nil] at h; omega
    · simp only [encIdx, List.length_cons]
      rw [ih rest (by simp only [List.length_cons] at h; omega)]
      omega

theorem encIdx_lt : ∀ (m : ℕ) (xs : List ℕ), xs.length ≤ m →
    (∀ x ∈ xs, x < 256) → ∀ i ∈ encIdx xs, i < 64 := by
  intro m
  induction m with
  | zero =>
    intro xs hlen hb i hi
    rw [Nat.le_zero, List.length_eq_zero] at hlen
    subst hlen
    simp [encIdx] at hi
  | succ k ih =>
    intro xs hlen hb i hi
    rcases xs with _ | ⟨a, _ | ⟨b, _ | ⟨c, rest⟩⟩⟩
    · simp [encIdx] at hi
    · have ha := hb a (by simp)
      simp [encIdx] at hi
      rcases hi with h | h <;> omega
    · have ha := hb a (by simp)
      have hbb := hb b (by simp)
      simp [encIdx] at hi
      rcases hi with h | h | h <;> omega
    · simp only [encIdx, List.mem_cons] at hi
      have ha := hb a (by simp)
      have hbb := hb b (by simp)
      have hc := hb c (by simp)
      rcases hi with h | h | h | h | h
      · omega
      · omega
      · omega
      · omega
      · exact ih rest (by simp at hlen; omega)
          (fun x hx => hb x (by simp [hx])) i h

theorem mapM_indexOf_map_charOf : ∀ l : List ℕ, (∀ i ∈ l, i < 64) →
    (l.map charOf).mapM indexOf = some l := by
  intro l
  induction l with
  | nil => intro; rfl
  | cons i r ih =>
    intro h
    simp only [List.map_cons, List.mapM_cons]
    rw [(charOf_spec i (h i (by simp))).1, ih (fun j hj => h j (by simp [hj]))]
    rfl

theorem decodeGroups_encIdx (n : ℕ) : ∀ (xs extra : List ℕ), xs.length = 3 * n →
    (∀ x ∈ xs, x < 256) →
    decodeGroups (encIdx xs ++ extra) = xs ++ decodeGroups extra := by
  induction n with
  | zero =>
    intro xs extra h hb
    rw [Nat.mul_zero, List.length_eq_zero] at h
    subst h
    rfl
  | succ k ih =>
    intro xs extra h hb
    rcases xs with _ | ⟨a, _ | ⟨b, _ | ⟨c, rest⟩⟩⟩
    · simp only [List.length_nil] at h; omega
    · simp only [List.length_cons, List.length_nil] at h; omega
    · simp only [List.length_cons, List.length_nil] at h; omega
    · have ha := hb a (by simp)
      have hbb := hb b (by simp)
      have hc := hb c (by simp)
      simp only [encIdx, List.cons_append, decodeGroups]
      rw [show (encIdx rest).append extra = encIdx rest ++ extra from rfl,
        ih rest extra (by simp only [List.length_cons] at h; omega)
          (fun x hx => hb x (by simp [hx]))]
      have e1 : a / 4 * 4 + (a % 4 * 16 + b / 16) / 16 = a := by omega
      have e2 : (a % 4 * 16 + b / 16) % 16 * 16 + (b % 16 * 4 + c / 64) / 4 = b := by omega
      have e3 : (b % 16 * 4 + c / 64) % 4 * 64 + c % 64 = c := by omega
      rw [e1, e2, e3]

theorem decodeGroups_tail1 {a : ℕ} (ha : a < 256) :
    decodeGroups [a / 4, a % 4 * 16] = [a] := by
  simp only [decodeGroups]
  congr 1
  omega

theorem decodeGroups_tail2 {a b : ℕ} (ha : a < 256) (hb : b < 256) :
    decodeGroups [a / 4, a % 4 * 16 + b / 16, b % 16 * 4] = [a, b] := by
  simp only [decodeGroups]
  congr 1
  · omega
  · congr 1
    omega

theorem dropWhile_eq_self_of_all {p : Char → Bool} :
    ∀ {l : List Char}, (∀ c ∈ l, p c = false) → l.dropWhile p = l := by
  intro l h
  cases l with
  | nil => rfl
  | cons a r => simp [List.dropWhile_cons, h a (by simp)]

theorem stripTrailingEquals_append_eqs {l : List Char} (h : '=' ∉ l) (k : ℕ) :
    stripTrailingEquals (l ++ List.replicate k '=') = l := by
  rw [stripTrailingEquals, List.reverse_append, List.reverse_replicate]
  have hdrop : ∀ j, List.dropWhile (fun c => c = '=')
      (List.replicate j '=' ++ l.reverse) = List.dropWhile (fun c => c = '=') l.reverse := by
    intro j
    induction j with
    | zero => simp
    | succ i ih => simpa [List.replicate_succ, List.dropWhile_cons] using ih
  rw [hdrop, dropWhile_eq_self_of_all, List.reverse_reverse]
  intro c hc
  simp only [List.mem_reverse] at hc
  simp only [decide_eq_false_iff_not]
  intro he
  exact h (he ▸ hc)

theorem stripTrailingEquals_no_eq {l : List Char} (h : '=' ∉ l) :
    stripTrailingEquals l = l := by
  have := stripTrailingEquals_append_eqs h 0
  simpa using this

theorem mem_of_getLast_eq {l : List Char} (hc : l.getLast? = some '=') : '=' ∈ l := by
  obtain ⟨hne, hx⟩ := List.mem_getLast?_eq_getLast (x := '=') (by rw [Option.mem_def]; exact hc)
  rw [hx]
  exact List.getLast_mem hne

theorem dropTrailingEq_no_eq {l : List Char} (h : '=' ∉ l) :
    dropTrailingEq l = l := by
  rw [dropTrailingEq]
  have hg : l.getLast? ≠ some '=' := by
    intro hc
    exact h (mem_of_getLast_eq hc)
  simp [hg]

theorem dropTrailingEq_append1 {l : List Char} (h : '=' ∉ l) :
    dropTrailingEq (l ++ ['=']) = l := by
  rw [dropTrailingEq]
  have hg : (l ++ ['=']).getLast? = some '=' := by
    rw [List.getLast?_concat]
  have hd : (l ++ ['=']).dropLast = l := by
    rw [List.dropLast_concat]
  have hg2 : l.getLast? ≠ some '=' := by
    intro hc
    exact h (mem_of_getLast_eq hc)
  simp [hg, hd, hg2]

theorem dropTrailingEq_append2 {l : List Char} (h : '=' ∉ l) :
    dropTrailingEq (l ++ ['=', '=']) = l := by
  rw [dropTrailingEq]
  have he : l ++ ['=', '='] = (l ++ ['=']) ++ ['='] := by simp
  have hg : (l ++ ['=', '=']).getLast? = some '=' := by
    rw [he, List.getLast?_concat]
  have hd : (l ++ ['=', '=']).dropLast = l ++ ['='] := by
    rw [he, List.dropLast_concat]
  have hg1 : (l ++ ['=']).getLast? = some '=' := by
    rw [List.getLast?_concat]
  have hd1 : (l ++ ['=']).dropLast = l := by
    rw [List.dropLast_concat]
  simp [hg, hd, hg1, hd1]

theorem base64Decode_of_idx (idx : List ℕ) (hi : ∀ i ∈ idx, i < 64) (k : ℕ)
    (hk : k ≤ 2) (hlen4 : (idx.length + k) % 4 = 0) :
    base64Decode (idx.map charOf ++ List.replicate k '=') = some (decodeGroups idx) := by
  have hne : '=' ∉ idx.map charOf := by
    intro hc
    rw [List.mem_map] at hc
    obtain ⟨i, hmem, hcs⟩ := hc
    exact (charOf_spec i (hi i hmem)).2.1 hcs
  have hfil : (idx.map charOf ++ List.replicate k '=').filter (fun c => ¬ asciiWs c) =
      idx.map charOf ++ List.replicate k '=' := by
    rw [List.filter_eq_self]
    intro c hc
    rw [List.mem_append] at hc
    rcases hc with hc | hc
    · rw [List.mem_map] at hc
      obtain ⟨i, hmem, hcs⟩ := hc
      simp [← hcs, (charOf_spec i (hi i hmem)).2.2.1]
    · rw [List.eq_of_mem_replicate hc]
      decide
  have hlen : (idx.map charOf ++ List.replicate k '=').length = idx.length + k := by
    simp
  have hdte : dropTrailingEq (idx.map charOf ++ List.replicate k '=') = idx.map charOf := by
    interval_cases k
    · simpa using dropTrailingEq_no_eq hne
    · exact dropTrailingEq_append1 hne
    · exact dropTrailingEq_append2 hne
  rw [base64Decode]
  simp only [hfil, hlen, hlen4, if_true, hdte, List.length_map]
  have hmod : idx.length % 4 ≠ 1 := by omega
  rw [if_neg hmod, mapM_indexOf_map_charOf idx hi]

/-- Every byte list splits into 3-byte groups plus a short tail. -/
theorem threeSplit (b : List ℕ) :
    ∃ (m : ℕ) (b0 t : List ℕ), b = b0 ++ t ∧ b0.length = 3 * m ∧
      (t = [] ∨ (∃ a, t = [a]) ∨ ∃ a a2, t = [a, a2]) := by
  refine ⟨b.length / 3, b.take (3 * (b.length / 3)), b.drop (3 * (b.length / 3)),
    (List.take_append_drop _ _).symm, ?_, ?_⟩
  · rw [List.length_take]
    omega
  · have hlen : (b.drop (3 * (b.length / 3))).length = b.length % 3 := by
      rw [List.length_drop]
      omega
    have h3 : (b.drop (3 * (b.length / 3))).length < 3 := by omega
    rcases hd : b.drop (3 * (b.length / 3)) with _ | ⟨a, _ | ⟨a2, _ | ⟨a3, r⟩⟩⟩
    · exact Or.inl rfl
    · exact Or.inr (Or.inl ⟨a, rfl⟩)
    · exact Or.inr (Or.inr ⟨a, a2, rfl⟩)
    · rw [hd] at h3
      simp at h3
      omega

/-- The url-safe code is exactly the forwarded alphabet characters of the
6-bit indices: the `=` padding appended by `encodeGroups` is stripped again
by `toBase64Url`. -/
theorem toBase64Url_eq_map (b : List ℕ) (hb : ∀ x ∈ b, x < 256) :
    toBase64Url b = (encIdx b).map (fun i => fwd (charOf i)) := by
  have hidx : ∀ i ∈ encIdx b, i < 64 := encIdx_lt b.length b le_rfl hb
  have hne : '=' ∉ (encIdx b).map (fun i => fwd (charOf i)) := by
    intro hc
    rw [List.mem_map] at hc
    obtain ⟨i, hmem, hcs⟩ := hc
    exact (charOf_spec i (hidx i hmem)).2.2.2.2.2 hcs
  have hmm : ∀ l : List ℕ, (l.map charOf).map fwd = l.map (fun i => fwd (charOf i)) := by
    intro l
    rw [List.map_map]
    rfl
  obtain ⟨m, b0, t, hsplit, hb0len, hsh⟩ := threeSplit b
  subst hsplit
  rw [toBase64Url_eq, encodeGroups_append3 m b0 t hb0len]
  rcases hsh with rfl | ⟨a, rfl⟩ | ⟨a, a2, rfl⟩
  · rw [encodeGroups_eq_map m b0 hb0len,
      show encodeGroups ([] : List ℕ) = [] from rfl, List.append_nil, hmm]
    rw [List.append_nil] at hne ⊢
    exact stripTrailingEquals_no_eq hne
  · rw [encodeGroups_eq_map m b0 hb0len,
      show encodeGroups [a] = (encIdx [a]).map charOf ++ ['=', '='] from rfl,
      encIdx_append3 m b0 [a] hb0len]
    rw [encIdx_append3 m b0 [a] hb0len] at hne
    rw [show (encIdx b0).map charOf ++ ((encIdx [a]).map charOf ++ ['=', '=']) =
      (encIdx b0 ++ encIdx [a]).map charOf ++ List.replicate 2 '=' from by simp]
    rw [List.map_append, hmm,
      show (List.replicate 2 '=').map fwd = List.replicate 2 '=' from by decide]
    exact stripTrailingEquals_append_eqs hne 2
  · rw [encodeGroups_eq_map m b0 hb0len,
      show encodeGroups [a, a2] = (encIdx [a, a2]).map charOf ++ ['='] from rfl,
      encIdx_append3 m b0 [a, a2] hb0len]
    rw [encIdx_append3 m b0 [a, a2] hb0len] at hne
    rw [show (encIdx b0).map charOf ++ ((encIdx [a, a2]).map charOf ++ ['=']) =
      (encIdx b0 ++ encIdx [a, a2]).map charOf ++ List.replicate 1 '=' from by simp]
    rw [List.map_append, hmm,
      show (List.replicate 1 '=').map fwd = List.replicate 1 '=' from by decide]
    exact stripTrailingEquals_append_eqs hne 1

/-- Decoding the 6-bit indices of a byte list recovers the bytes. -/
theorem decodeGroups_encIdx_self (b : List ℕ) (hb : ∀ x ∈ b, x < 256) :
    decodeGroups (encIdx b) = b := by
  obtain ⟨m, b0, t, hsplit, hb0len, hsh⟩ := threeSplit b
  subst hsplit
  have hb0 : ∀ x ∈ b0, x < 256 := fun x hx => hb x (List.mem_append_left _ hx)
  rw [encIdx_append3 m b0 t hb0len, decodeGroups_encIdx m b0 (encIdx t) hb0len hb0]
  rcases hsh with rfl | ⟨a, rfl⟩ | ⟨a, a2, rfl⟩
  · rfl
  · have ha : a < 256 := hb a (by simp)
    rw [show encIdx [a] = [a / 4, a % 4 * 16] from rfl, decodeGroups_tail1 ha]
  · have ha : a < 256 := hb a (by simp)
    have ha2 : a2 < 256 := hb a2 (by simp)
    rw [show encIdx [a, a2] = [a / 4, a % 4 * 16 + a2 / 16, a2 % 16 * 4] from rfl,
      decodeGroups_tail2 ha ha2]

/-- The index list of a byte list never has length 1 modulo 4. -/
theorem encIdx_mod4 (b : List ℕ) : (encIdx b).length % 4 ≠ 1 := by
  obtain ⟨m, b0, t, hsplit, hb0len, hsh⟩ := threeSplit b
  subst hsplit
  rw [encIdx_append3 m b0 t hb0len, List.length_append, encIdx_length3 m b0 hb0len]
  rcases hsh with rfl | ⟨a, rfl⟩ | ⟨a, a2, rfl⟩ <;> simp [encIdx] <;> omega

/-- `fromBase64Url` on a forwarded index code re-pads and decodes it. -/
theorem fromBase64Url_of_code (idx : List ℕ) (hi : ∀ i ∈ idx, i < 64)
    (hm : idx.length % 4 ≠ 1) :
    fromBase64Url (idx.map (fun i => fwd (charOf i))) = some (decodeGroups idx) := by
  rw [fromBase64Url_eq]
  have hmap : (idx.map (fun i => fwd (charOf i))).map bwd = idx.map charOf := by
    rw [List.map_map]
    apply List.map_congr_left
    intro i hmem
    exact (charOf_spec i (hi i hmem)).2.2.2.1
  rw [hmap, List.length_map]
  by_cases h0 : idx.length % 4 = 0
  · rw [if_pos h0, List.append_nil]
    have := base64Decode_of_idx idx hi 0 (by omega) (by omega)
    simpa using this
  · rw [if_neg h0]
    exact base64Decode_of_idx idx hi (4 - idx.length % 4) (by omega) (by omega)

/-- Round trip: `fromBase64Url` decodes `toBase64Url` back to the bytes. -/
theorem fromBase64Url_toBase64Url (b : List ℕ) (hb : ∀ x ∈ b, x < 256) :
    fromBase64Url (toBase64Url b) = some b := by
  rw [toBase64Url_eq_map b hb,
    fromBase64Url_of_code (encIdx b) (encIdx_lt b.length b le_rfl hb) (encIdx_mod4 b),
    decodeGroups_encIdx_self b hb]

end B64

namespace BinCodec

open CadetMap.RouteUtils CadetMap.Base64

/-- The four bytes of a 32-bit write are bytes. -/
theorem int32BEBytes_lt (i : ℤ) : ∀ x ∈ int32BEBytes i, x < 256 := by
  intro x hx
  simp only [int32BEBytes, List.mem_cons, List.not_mem_nil, or_false] at hx
  rcases hx with h | h | h | h <;> omega

/-- `setInt32` followed by `getInt32` is the identity on 32-bit values. -/
theorem int32_roundtrip (i : ℤ) (h1 : -2147483648 ≤ i) (h2 : i < 2147483648) :
    ∃ b0 b1 b2 b3, int32BEBytes i = [b0, b1, b2, b3] ∧
      getInt32BE b0 b1 b2 b3 = i := by
  refine ⟨_, _, _, _, rfl, ?_⟩
  show getInt32BE ((i % 4294967296).toNat / 16777216 % 256)
    ((i % 4294967296).toNat / 65536 % 256) ((i % 4294967296).toNat / 256 % 256)
    ((i % 4294967296).toNat % 256) = i
  rw [getInt32BE]
  have hu : ((i % 4294967296).toNat : ℤ) = i % 4294967296 := by omega
  set u := (i % 4294967296).toNat with hudef
  have hub : u < 4294967296 := by omega
  have hsum : u / 16777216 % 256 * 16777216 + u / 65536 % 256 * 65536 +
      u / 256 % 256 * 256 + u % 256 = u := by omega
  simp only [hsum]
  split
  · omega
  · omega

theorem writeCoordinate_length (p : Position) : (writeCoordinate p).length = 8 := by
  simp [writeCoordinate, int32BEBytes]

theorem writeCoordinate_lt (p : Position) : ∀ x ∈ writeCoordinate p, x < 256 := by
  intro x hx
  rw [writeCoordinate, List.mem_append] at hx
  rcases hx with h | h
  · exact int32BEBytes_lt _ x h
  · exact int32BEBytes_lt _ x h

/-- The scaled integer of an in-range coordinate fits in 32 bits. -/
theorem scale_bounds {q B : ℚ} {n : ℤ} (hn : (n : ℚ) = B * ROUTE_SHARE_SCALE)
    (hl : -B ≤ q) (hr : q ≤ B) :
    -n ≤ jsRound (q * ROUTE_SHARE_SCALE) ∧ jsRound (q * ROUTE_SHARE_SCALE) ≤ n := by
  constructor
  · apply le_jsRound
    push_cast
    rw [hn]
    have := mul_le_mul_of_nonneg_right hl
      (show (0 : ℚ) ≤ ROUTE_SHARE_SCALE by rw [ROUTE_SHARE_SCALE]; norm_num)
    linarith
  · apply jsRound_le
    rw [hn]
    exact mul_le_mul_of_nonneg_right hr
      (by rw [ROUTE_SHARE_SCALE]; norm_num)

/-- The quantised position produced by a binary round trip. -/
def quantPos (p : Position) : Position :=
  ⟨(jsRound (p.lat * ROUTE_SHARE_SCALE) : ℚ) / ROUTE_SHARE_SCALE,
   (jsRound (p.lng * ROUTE_SHARE_SCALE) : ℚ) / ROUTE_SHARE_SCALE⟩

/-- Reading a written coordinate recovers its quantised value. -/
theorem readCoordinate_writeCoordinate (p : Position) (hp : ValidPos p)
    (rest : List ℕ) :
    readCoordinate (writeCoordinate p ++ rest) =
      (((quantPos p).lat, (quantPos p).lng), rest) := by
  obtain ⟨hla, hlb, hga, hgb, -, -⟩ := hp
  obtain ⟨hl1, hl2⟩ := scale_bounds (B := 90) (n := 9000000)
    (by rw [ROUTE_SHARE_SCALE]; norm_num) hla hlb
  obtain ⟨hg1, hg2⟩ := scale_bounds (B := 180) (n := 18000000)
    (by rw [ROUTE_SHARE_SCALE]; norm_num) hga hgb
  obtain ⟨a0, a1, a2, a3, hea, hga'⟩ :=
    int32_roundtrip (jsRound (p.lat * ROUTE_SHARE_SCALE)) (by omega) (by omega)
  obtain ⟨c0, c1, c2, c3, hec, hgc'⟩ :=
    int32_roundtrip (jsRound (p.lng * ROUTE_SHARE_SCALE)) (by omega) (by omega)
  rw [writeCoordinate, hea, hec]
  show readCoordinate (a0 :: a1 :: a2 :: a3 :: c0 :: c1 :: c2 :: c3 :: rest) = _
  rw [readCoordinate, hga', hgc']
  rfl

/-- The checkpoint loop reads back the written checkpoint block. -/
theorem readCheckpoints_flatten (cps : List Position) (h : ∀ p ∈ cps, ValidPos p)
    (rest : List ℕ) :
    readCheckpoints cps.length ((cps.map writeCoordinate).flatten ++ rest) =
      (cps.map (fun p => rawPosToJVal (quantPos p).lat (quantPos p).lng), rest) := by
  induction cps with
  | nil => rfl
  | cons p l ih =>
    rw [List.length_cons, List.map_cons, List.flatten_cons, List.append_assoc]
    rw [readCheckpoints]
    rw [readCoordinate_writeCoordinate p (h p (by simp)) _]
    show (match readCheckpoints l.length ((List.map writeCoordinate l).flatten ++ rest) with
      | (ps, l3) => (rawPosToJVal (quantPos p).lat (quantPos p).lng :: ps, l3)) = _
    rw [ih (fun q hq => h q (by simp [hq]))]
    rfl

theorem writeBlock_length (cps : List Position) :
    ((cps.map writeCoordinate).flatten).length = 8 * cps.length := by
  induction cps with
  | nil => rfl
  | cons p l ih =>
    rw [List.map_cons, List.flatten_cons, List.length_append, ih,
      writeCoordinate_length, List.length_cons]
    ring

theorem writeBlock_lt (cps : List Position) :
    ∀ x ∈ (cps.map writeCoordinate).flatten, x < 256 := by
  intro x hx
  rw [List.mem_flatten] at hx
  obtain ⟨l, hl, hxl⟩ := hx
  rw [List.mem_map] at hl
  obtain ⟨p, -, hp⟩ := hl
  exact writeCoordinate_lt p x (hp ▸ hxl)

theorem append_lt {l1 l2 : List ℕ} (h1 : ∀ x ∈ l1, x < 256)
    (h2 : ∀ x ∈ l2, x < 256) : ∀ x ∈ l1 ++ l2, x < 256 := by
  intro x hx
  rw [List.mem_append] at hx
  rcases hx with h | h
  · exact h1 x h
  · exact h2 x h

theorem encBytes_lt {b0 b1 b2 b3 b4 : ℕ} (h0 : b0 < 256) (h1 : b1 < 256)
    (h2 : b2 < 256) (h3 : b3 < 256) (h4 : b4 < 256) {rest : List ℕ}
    (hr : ∀ x ∈ rest, x < 256) :
    ∀ x ∈ b0 :: b1 :: b2 :: b3 :: b4 :: rest, x < 256 := by
  intro x hx
  simp only [List.mem_cons] at hx
  rcases hx with h | h | h | h | h | h
  · omega
  · omega
  · omega
  · omega
  · omega
  · exact hr x h

/-- Decoding an encoded snapshot yields the raw quantised object. -/
theorem decodeBinary_encodeBinary (S : RouteSnapshot) (hS : ValidSnapshot S)
    (hc : S.checkpoints.length < 65536) :
    decodeBinaryRouteShare (encodeBinaryRouteShare S) =
      some (.obj [("version".toList, .num 1),
        ("connectVia".toList, .str (if S.connectVia = .route then "route".toList
          else "direct".toList)),
        ("start".toList, match S.start with
          | some p => rawPosToJVal (quantPos p).lat (quantPos p).lng
          | none => .null),
        ("end".toList, match S.endPos with
          | some p => rawPosToJVal (quantPos p).lat (quantPos p).lng
          | none => .null),
        ("checkpoints".toList, .arr (S.checkpoints.map
          (fun p => rawPosToJVal (quantPos p).lat (quantPos p).lng)))]) := by
  obtain ⟨hstart, hend, hcps⟩ := hS
  have hcc : S.checkpoints.length / 256 % 256 * 256 + S.checkpoints.length % 256 =
      S.checkpoints.length := by omega
  have hvia : (if S.connectVia = .route then (1 : ℕ) else 0) < 256 := by
    split
    · norm_num
    · norm_num
  have hcv : (if (if S.connectVia = .route then (1 : ℕ) else 0) = 1
      then "route".toList else "direct".toList) =
      (if S.connectVia = .route then "route".toList else "direct".toList) := by
    rcases S.connectVia <;> rfl
  rcases hs : S.start with - | ps <;> rcases he : S.endPos with - | pe
  · have henc : encodeBinaryRouteShare S = Base64.toBase64Url
        (1 :: 0 :: (if S.connectVia = .route then 1 else 0) ::
         (S.checkpoints.length / 256 % 256) :: (S.checkpoints.length % 256) ::
         (S.checkpoints.map writeCoordinate).flatten) := by
      rw [encodeBinaryRouteShare, hs, he]
      simp [uint16BEBytes]
    have hlt : ∀ x ∈ (1 : ℕ) :: 0 :: (if S.connectVia = .route then 1 else 0) ::
        (S.checkpoints.length / 256 % 256) :: (S.checkpoints.length % 256) ::
        (S.checkpoints.map writeCoordinate).flatten, x < 256 :=
      encBytes_lt (by norm_num) (by norm_num) hvia (by omega) (by omega)
        (writeBlock_lt S.checkpoints)
    rw [henc, decodeBinaryRouteShare, B64.fromBase64Url_toBase64Url _ hlt]
    have hrcp0 := readCheckpoints_flatten S.checkpoints hcps []
    rw [List.append_nil] at hrcp0
    simp only [hcc, hcv, writeBlock_length, List.length_append, hrcp0]
    norm_num [mul_comm, hrcp0]
  · have hpe := hend pe he
    have henc : encodeBinaryRouteShare S = Base64.toBase64Url
        (1 :: 2 :: (if S.connectVia = .route then 1 else 0) ::
         (S.checkpoints.length / 256 % 256) :: (S.checkpoints.length % 256) ::
         ((S.checkpoints.map writeCoordinate).flatten ++ writeCoordinate pe)) := by
      rw [encodeBinaryRouteShare, hs, he]
      simp [uint16BEBytes]
    have hlt : ∀ x ∈ (1 : ℕ) :: 2 :: (if S.connectVia = .route then 1 else 0) ::
        (S.checkpoints.length / 256 % 256) :: (S.checkpoints.length % 256) ::
        ((S.checkpoints.map writeCoordinate).flatten ++ writeCoordinate pe), x < 256 :=
      encBytes_lt (by norm_num) (by norm_num) hvia (by omega) (by omega)
        (append_lt (writeBlock_lt S.checkpoints) (writeCoordinate_lt pe))
    rw [henc, decodeBinaryRouteShare, B64.fromBase64Url_toBase64Url _ hlt]
    have hrc : readCoordinate (writeCoordinate pe) =
        (((quantPos pe).lat, (quantPos pe).lng), []) := by
      rw [← List.append_nil (writeCoordinate pe)]
      exact readCoordinate_writeCoordinate pe hpe []
    simp only [hcc, hcv, writeBlock_length, writeCoordinate_length,
      List.length_append, readCheckpoints_flatten S.checkpoints hcps, hrc]
    norm_num [mul_comm, readCheckpoints_flatten S.checkpoints hcps, hrc]
    intro hcon
    exact absurd (by ring) hcon
  · have hps := hstart ps hs
    have henc : encodeBinaryRouteShare S = Base64.toBase64Url
        (1 :: 1 :: (if S.connectVia = .route then 1 else 0) ::
         (S.checkpoints.length / 256 % 256) :: (S.checkpoints.length % 256) ::
         (writeCoordinate ps ++ (S.checkpoints.map writeCoordinate).flatten)) := by
      rw [encodeBinaryRouteShare, hs, he]
      simp [uint16BEBytes]
    have hlt : ∀ x ∈ (1 : ℕ) :: 1 :: (if S.connectVia = .route then 1 else 0) ::
        (S.checkpoints.length / 256 % 256) :: (S.checkpoints.length % 256) ::
        (writeCoordinate ps ++ (S.checkpoints.map writeCoordinate).flatten), x < 256 :=
      encBytes_lt (by norm_num) (by norm_num) hvia (by omega) (by omega)
        (append_lt (writeCoordinate_lt ps) (writeBlock_lt S.checkpoints))
    rw [henc, decodeBinaryRouteShare, B64.fromBase64Url_toBase64Url _ hlt]
    have hrs := readCoordinate_writeCoordinate ps hps
      (S.checkpoints.map writeCoordinate).flatten
    have hrcp := readCheckpoints_flatten S.checkpoints hcps []
    rw [List.append_nil] at hrcp
    simp only [hcc, hcv, writeBlock_length, writeCoordinate_length,
      List.length_append, hrs, hrcp]
    norm_num [mul_comm, hrs, hrcp]
    intro hcon
    exact absurd (by ring) hcon
  · have hps := hstart ps hs
    have hpe := hend pe he
    have henc : encodeBinaryRouteShare S = Base64.toBase64Url
        (1 :: 3 :: (if S.connectVia = .route then 1 else 0) ::
         (S.checkpoints.length / 256 % 256) :: (S.checkpoints.length % 256) ::
         (writeCoordinate ps ++ ((S.checkpoints.map writeCoordinate).flatten ++
           writeCoordinate pe))) := by
      rw [encodeBinaryRouteShare, hs, he]
      simp [uint16BEBytes]
    have hlt : ∀ x ∈ (1 : ℕ) :: 3 :: (if S.connectVia = .route then 1 else 0) ::
        (S.checkpoints.length / 256 % 256) :: (S.checkpoints.length % 256) ::
        (writeCoordinate ps ++ ((S.checkpoints.map writeCoordinate).flatten ++
          writeCoordinate pe)), x < 256 :=
      encBytes_lt (by norm_num) (by norm_num) hvia (by omega) (by omega)
        (append_lt (writeCoordinate_lt ps)
          (append_lt (writeBlock_lt S.checkpoints) (writeCoordinate_lt pe)))
    rw [henc, decodeBinaryRouteShare, B64.fromBase64Url_toBase64Url _ hlt]
    have hrs := readCoordinate_writeCoordinate ps hps
      ((S.checkpoints.map writeCoordinate).flatten ++ writeCoordinate pe)
    have hrcp := readCheckpoints_flatten S.checkpoints hcps (writeCoordinate pe)
    have hrc : readCoordinate (writeCoordinate pe) =
        (((quantPos pe).lat, (quantPos pe).lng), []) := by
      rw [← List.append_nil (writeCoordinate pe)]
      exact readCoordinate_writeCoordinate pe hpe []
    simp only [hcc, hcv, writeBlock_length, writeCoordinate_length,
      List.length_append, hrs, hrcp, hrc]
    norm_num [mul_comm, hrs, hrcp, hrc]
    have hand : ((3 : ℕ) &&& 2) = 2 := by decide
    rw [hand]
    constructor
    · norm_num
      ring
    · intro h
      exact absurd h (by norm_num)

/-- `clampPrecision` fixes a coordinate that is already a multiple of
`1e-5`. -/
theorem clampPrecision_quant (z : ℤ) :
    RouteUtils.clampPrecision ((z : ℚ) / ROUTE_SHARE_SCALE) = (z : ℚ) / ROUTE_SHARE_SCALE := by
  rw [RouteUtils.clampPrecision, ROUTE_SHARE_SCALE]
  have h : (z : ℚ) / 100000 * 1000000 = ((10 * z : ℤ) : ℚ) := by
    push_cast
    ring
  rw [h, jsRound_intCast]
  push_cast
  ring

/-- Bounds of the quantised position. -/
theorem quantPos_bounds (p : Position) (hp : ValidPos p) :
    -90 ≤ (quantPos p).lat ∧ (quantPos p).lat ≤ 90 ∧
    -180 ≤ (quantPos p).lng ∧ (quantPos p).lng ≤ 180 := by
  obtain ⟨hla, hlb, hga, hgb, -, -⟩ := hp
  obtain ⟨hl1, hl2⟩ := scale_bounds (B := 90) (n := 9000000)
    (by rw [ROUTE_SHARE_SCALE]; norm_num) hla hlb
  obtain ⟨hg1, hg2⟩ := scale_bounds (B := 180) (n := 18000000)
    (by rw [ROUTE_SHARE_SCALE]; norm_num) hga hgb
  have hl1q : (-9000000 : ℚ) ≤ (jsRound (p.lat * ROUTE_SHARE_SCALE) : ℚ) := by
    exact_mod_cast hl1
  have hl2q : (jsRound (p.lat * ROUTE_SHARE_SCALE) : ℚ) ≤ 9000000 := by
    exact_mod_cast hl2
  have hg1q : (-18000000 : ℚ) ≤ (jsRound (p.lng * ROUTE_SHARE_SCALE) : ℚ) := by
    exact_mod_cast hg1
  have hg2q : (jsRound (p.lng * ROUTE_SHARE_SCALE) : ℚ) ≤ 18000000 := by
    exact_mod_cast hg2
  have e1 : (quantPos p).lat = (jsRound (p.lat * ROUTE_SHARE_SCALE) : ℚ) / 100000 := rfl
  have e2 : (quantPos p).lng = (jsRound (p.lng * ROUTE_SHARE_SCALE) : ℚ) / 100000 := rfl
  have h0 : (0 : ℚ) < 100000 := by norm_num
  refine ⟨?_, ?_, ?_, ?_⟩
  · rw [e1, le_div_iff₀ h0]
    linarith
  · rw [e1, div_le_iff₀ h0]
    linarith
  · rw [e2, le_div_iff₀ h0]
    linarith
  · rw [e2, div_le_iff₀ h0]
    linarith

/-- The quantised position passes `normalisePosition` unchanged. -/
theorem normalisePosition_quant (p : Position) (hp : ValidPos p) :
    normalisePosition (rawPosToJVal (quantPos p).lat (quantPos p).lng) =
      some (quantPos p) := by
  obtain ⟨hb1, hb2, hb3, hb4⟩ := quantPos_bounds p hp
  rw [Geohash.normalisePosition_rawPos hb1 hb2 hb3 hb4]
  have e1 : RouteUtils.clampPrecision (quantPos p).lat = (quantPos p).lat :=
    clampPrecision_quant (jsRound (p.lat * ROUTE_SHARE_SCALE))
  have e2 : RouteUtils.clampPrecision (quantPos p).lng = (quantPos p).lng :=
    clampPrecision_quant (jsRound (p.lng * ROUTE_SHARE_SCALE))
  rw [e1, e2]

/-- The quantised position is valid. -/
theorem quantPos_valid (p : Position) (hp : ValidPos p) : ValidPos (quantPos p) := by
  obtain ⟨hb1, hb2, hb3, hb4⟩ := quantPos_bounds p hp
  exact ⟨hb1, hb2, hb3, hb4,
    clampPrecision_quant (jsRound (p.lat * ROUTE_SHARE_SCALE)),
    clampPrecision_quant (jsRound (p.lng * ROUTE_SHARE_SCALE))⟩

/-- The quantised coordinate is within `5e-6` of the original. -/
theorem quantPos_close (q : ℚ) :
    |(jsRound (q * ROUTE_SHARE_SCALE) : ℚ) / ROUTE_SHARE_SCALE - q| ≤ 1 / 200000 := by
  rw [jsRound, ROUTE_SHARE_SCALE]
  have hle := Int.floor_le (q * 100000 + 1 / 2)
  have hgt := Int.lt_floor_add_one (q * 100000 + 1 / 2)
  rw [abs_le]
  constructor <;> linarith

/-- The snapshot with every position quantised to `1e-5` degrees. -/
def quantSnapshot (S : RouteSnapshot) : RouteSnapshot :=
  ⟨1, S.connectVia, S.start.map quantPos, S.endPos.map quantPos,
   S.checkpoints.map quantPos⟩

/-- The raw object produced by `decodeBinaryRouteShare` on an encoded
snapshot. -/
def decodedObj (S : RouteSnapshot) : JVal :=
  .obj [("version".toList, .num 1),
    ("connectVia".toList, .str (if S.connectVia = .route then "route".toList
      else "direct".toList)),
    ("start".toList, match S.start with
      | some p => rawPosToJVal (quantPos p).lat (quantPos p).lng
      | none => .null),
    ("end".toList, match S.endPos with
      | some p => rawPosToJVal (quantPos p).lat (quantPos p).lng
      | none => .null),
    ("checkpoints".toList, .arr (S.checkpoints.map
      (fun p => rawPosToJVal (quantPos p).lat (quantPos p).lng)))]

theorem decodeBinary_encodeBinary_obj (S : RouteSnapshot) (hS : ValidSnapshot S)
    (hc : S.checkpoints.length < 65536) :
    decodeBinaryRouteShare (encodeBinaryRouteShare S) = some (decodedObj S) :=
  decodeBinary_encodeBinary S hS hc

/-- Evaluation of `normaliseRouteShareSnapshot` on a version-1 object. -/
theorem normalise_obj_eval (v : JVal) (ht : v.truthy = true)
    (ho : v.isObjectType = true)
    (hver : v.getField "version".toList = .num 1) :
    normaliseRouteShareSnapshot v = some ⟨1,
      (match v.getField "connectVia".toList with
       | .str s => if s = "route".toList then .route else .direct
       | _ => .direct),
      normalisePosition (v.getField "start".toList),
      normalisePosition (v.getField "end".toList),
      (match v.getField "checkpoints".toList with
       | .arr xs => (xs.map normalisePosition).filterMap id
       | _ => [])⟩ := by
  rw [normaliseRouteShareSnapshot, if_neg (by simp [ht, ho])]
  simp only [hver]
  rw [if_neg (by simp [ROUTE_SHARE_VERSION])]

/-- The decoded checkpoint array renormalises to the quantised list. -/
theorem filterMap_quant (cps : List Position) (h : ∀ p ∈ cps, ValidPos p) :
    (((cps.map (fun p => rawPosToJVal (quantPos p).lat (quantPos p).lng)).map
      normalisePosition).filterMap id) = cps.map quantPos := by
  induction cps with
  | nil => rfl
  | cons p l ih =>
    simp only [List.map_cons, List.filterMap_cons,
      normalisePosition_quant p (h p (by simp)), id_eq]
    rw [ih (fun q hq => h q (by simp [hq]))]

/-- Renormalising the decoded object yields the quantised snapshot. -/
theorem normalise_decoded (S : RouteSnapshot) (hS : ValidSnapshot S) :
    normaliseRouteShareSnapshot (decodedObj S) = some (quantSnapshot S) := by
  obtain ⟨hstart, hend, hcps⟩ := hS
  rw [normalise_obj_eval (decodedObj S) rfl rfl rfl]
  have hgc : (decodedObj S).getField "connectVia".toList =
      .str (if S.connectVia = .route then "route".toList else "direct".toList) := rfl
  have hgs : (decodedObj S).getField "start".toList =
      (match S.start with
       | some p => rawPosToJVal (quantPos p).lat (quantPos p).lng
       | none => .null) := rfl
  have hge : (decodedObj S).getField "end".toList =
      (match S.endPos with
       | some p => rawPosToJVal (quantPos p).lat (quantPos p).lng
       | none => .null) := rfl
  have hgk : (decodedObj S).getField "checkpoints".toList =
      .arr (S.checkpoints.map
        (fun p => rawPosToJVal (quantPos p).lat (quantPos p).lng)) := rfl
  rw [hgc, hgs, hge, hgk]
  have hcv : (match JVal.str (if S.connectVia = .route then "route".toList
        else "direct".toList) with
      | .str s => if s = "route".toList then ConnectVia.route else ConnectVia.direct
      | _ => ConnectVia.direct) = S.connectVia := by
    rcases S.connectVia
    · rw [if_neg (by decide)]
      show (if ("direct".toList = "route".toList) then ConnectVia.route
        else ConnectVia.direct) = ConnectVia.direct
      rw [if_neg (by decide)]
    · rw [if_pos rfl]
      show (if ("route".toList = "route".toList) then ConnectVia.route
        else ConnectVia.direct) = ConnectVia.route
      rw [if_pos rfl]
  have hst : normalisePosition (match S.start with
      | some p => rawPosToJVal (quantPos p).lat (quantPos p).lng
      | none => .null) = S.start.map quantPos := by
    rcases hs : S.start with - | p
    · rfl
    · exact normalisePosition_quant p (hstart p hs)
  have hen : normalisePosition (match S.endPos with
      | some p => rawPosToJVal (quantPos p).lat (quantPos p).lng
      | none => .null) = S.endPos.map quantPos := by
    rcases he : S.endPos with - | p
    · rfl
    · exact normalisePosition_quant p (hend p he)
  rw [quantSnapshot]
  congr 1
  rw [hcv, hst, hen]
  congr 1
  exact filterMap_quant S.checkpoints hcps

/-- A valid position embeds and renormalises to itself. -/
theorem normalisePosition_toJVal (p : Position) (hp : ValidPos p) :
    normalisePosition (Position.toJVal p) = some p := by
  obtain ⟨h1, h2, h3, h4, h5, h6⟩ := hp
  show normalisePosition (rawPosToJVal p.lat p.lng) = some p
  rw [Geohash.normalisePosition_rawPos h1 h2 h3 h4, h5, h6]

theorem filterMap_toJVal (cps : List Position) (h : ∀ p ∈ cps, ValidPos p) :
    (((cps.map Position.toJVal).map normalisePosition).filterMap id) = cps := by
  induction cps with
  | nil => rfl
  | cons p l ih =>
    simp only [List.map_cons, List.filterMap_cons,
      normalisePosition_toJVal p (h p (by simp)), id_eq]
    rw [ih (fun q hq => h q (by simp [hq]))]

/-- A valid version-1 snapshot embeds and renormalises to itself. -/
theorem normalise_snapshotToJVal (S : RouteSnapshot) (hv : S.version = 1)
    (hS : ValidSnapshot S) :
    normaliseRouteShareSnapshot (snapshotToJVal S) = some S := by
  obtain ⟨hstart, hend, hcps⟩ := hS
  have hgv : (snapshotToJVal S).getField "version".toList = .num S.version := rfl
  rw [normalise_obj_eval (snapshotToJVal S) rfl rfl (by rw [hgv, hv])]
  have hgc : (snapshotToJVal S).getField "connectVia".toList =
      connectViaToJVal S.connectVia := rfl
  have hgs : (snapshotToJVal S).getField "start".toList =
      (match S.start with | some p => Position.toJVal p | none => .null) := rfl
  have hge : (snapshotToJVal S).getField "end".toList =
      (match S.endPos with | some p => Position.toJVal p | none => .null) := rfl
  have hgk : (snapshotToJVal S).getField "checkpoints".toList =
      .arr (S.checkpoints.map Position.toJVal) := rfl
  rw [hgc, hgs, hge, hgk]
  have hcv : (match connectViaToJVal S.connectVia with
      | .str s => if s = "route".toList then ConnectVia.route else ConnectVia.direct
      | _ => ConnectVia.direct) = S.connectVia := by
    rcases S.connectVia
    · show (if ("direct".toList = "route".toList) then ConnectVia.route
        else ConnectVia.direct) = ConnectVia.direct
      rw [if_neg (by decide)]
    · show (if ("route".toList = "route".toList) then ConnectVia.route
        else ConnectVia.direct) = ConnectVia.route
      rw [if_pos rfl]
  have hst : normalisePosition (match S.start with
      | some p => Position.toJVal p | none => .null) = S.start := by
    rcases hs : S.start with - | p
    · rfl
    · exact normalisePosition_toJVal p (hstart p hs)
  have hen : normalisePosition (match S.endPos with
      | some p => Position.toJVal p | none => .null) = S.endPos := by
    rcases he : S.endPos with - | p
    · rfl
    · exact normalisePosition_toJVal p (hend p he)
  rw [hcv, hst, hen]
  have hmk : (match JVal.arr (S.checkpoints.map Position.toJVal) with
      | JVal.arr xs => (xs.map normalisePosition).filterMap id
      | _ => ([] : List Position)) =
      ((S.checkpoints.map Position.toJVal).map normalisePosition).filterMap id := rfl
  rw [hmk, filterMap_toJVal S.checkpoints hcps, ← hv]

/-- The byte list written by `encodeBinaryRouteShare`. -/
def encBytes (S : RouteSnapshot) : List ℕ :=
  [1, (if S.start.isSome then 1 else 0) ||| (if S.endPos.isSome then 2 else 0),
   if S.connectVia = .route then 1 else 0] ++
  uint16BEBytes S.checkpoints.length ++
  (match S.start with | some p => writeCoordinate p | none => []) ++
  (S.checkpoints.map writeCoordinate).flatten ++
  (match S.endPos with | some p => writeCoordinate p | none => [])

theorem encodeBinaryRouteShare_eq (S : RouteSnapshot) :
    encodeBinaryRouteShare S = Base64.toBase64Url (encBytes S) := rfl

theorem encBytes_all_lt (S : RouteSnapshot) : ∀ x ∈ encBytes S, x < 256 := by
  have h1 : ∀ x ∈ ([1, (if S.start.isSome then 1 else 0) |||
      (if S.endPos.isSome then 2 else 0),
      if S.connectVia = .route then 1 else 0] : List ℕ), x < 256 := by
    intro x hx
    simp only [List.mem_cons, List.not_mem_nil, or_false] at hx
    rcases hx with h | h | h
    · omega
    · subst h
      rcases S.start.isSome <;> rcases S.endPos.isSome <;> decide
    · subst h
      split
      · norm_num
      · norm_num
  have h2 : ∀ x ∈ uint16BEBytes S.checkpoints.length, x < 256 := by
    intro x hx
    simp only [uint16BEBytes, List.mem_cons, List.not_mem_nil, or_false] at hx
    rcases hx with h | h <;> omega
  have h3 : ∀ x ∈ (match S.start with
      | some p => writeCoordinate p | none => ([] : List ℕ)), x < 256 := by
    rcases S.start with - | p
    · intro x hx
      simp at hx
    · exact writeCoordinate_lt p
  have h5 : ∀ x ∈ (match S.endPos with
      | some p => writeCoordinate p | none => ([] : List ℕ)), x < 256 := by
    rcases S.endPos with - | p
    · intro x hx
      simp at hx
    · exact writeCoordinate_lt p
  exact append_lt (append_lt (append_lt (append_lt h1 h2) h3)
    (writeBlock_lt S.checkpoints)) h5

theorem encBytes_ne_nil (S : RouteSnapshot) : encBytes S ≠ [] := by
  rw [encBytes]
  simp

/-- Every character of a url-safe code is non-whitespace. -/
theorem toBase64Url_chars_not_ws (b : List ℕ) (hb : ∀ x ∈ b, x < 256) :
    ∀ c ∈ Base64.toBase64Url b, jsWsChar c = false := by
  rw [B64.toBase64Url_eq_map b hb]
  intro c hc
  rw [List.mem_map] at hc
  obtain ⟨i, hmem, hcs⟩ := hc
  rw [← hcs]
  exact (B64.charOf_spec i (B64.encIdx_lt b.length b le_rfl hb i hmem)).2.2.2.2.1

theorem encIdx_cons_ne_nil (a : ℕ) (l : List ℕ) : B64.encIdx (a :: l) ≠ [] := by
  rcases l with - | ⟨b, - | ⟨c, r⟩⟩ <;> simp [B64.encIdx]

/-- The url-safe code of a nonempty byte list is nonempty. -/
theorem toBase64Url_ne_nil (b : List ℕ) (hb : ∀ x ∈ b, x < 256) (hne : b ≠ []) :
    Base64.toBase64Url b ≠ [] := by
  rw [B64.toBase64Url_eq_map b hb]
  rcases b with - | ⟨a, l⟩
  · exact absurd rfl hne
  · simp only [ne_eq, List.map_eq_nil_iff]
    exact encIdx_cons_ne_nil a l

theorem jsTrim_eq_self {l : List Char} (h : ∀ c ∈ l, jsWsChar c = false) :
    jsTrim l = l := by
  rw [jsTrim, B64.dropWhile_eq_self_of_all h,
    B64.dropWhile_eq_self_of_all (fun c hc => h c (List.mem_reverse.mp hc)),
    List.reverse_reverse]

/-- The full round trip through the binary codec. -/
theorem decodeRouteShare_encodeRouteShare (S : RouteSnapshot) (hv : S.version = 1)
    (hS : ValidSnapshot S) (hcnt : S.checkpoints.length < 65536) :
    decodeRouteShare (encodeRouteShare (snapshotToJVal S)) =
      some (quantSnapshot S) := by
  have henc : encodeRouteShare (snapshotToJVal S) = encodeBinaryRouteShare S := by
    rw [encodeRouteShare, normalise_snapshotToJVal S hv hS]
  have hws := toBase64Url_chars_not_ws (encBytes S) (encBytes_all_lt S)
  have hnn := toBase64Url_ne_nil (encBytes S) (encBytes_all_lt S) (encBytes_ne_nil S)
  rw [henc, encodeBinaryRouteShare_eq, decodeRouteShare]
  simp only [jsTrim_eq_self hws]
  rw [if_neg hnn]
  have hdec : decodeBinaryRouteShare (Base64.toBase64Url (encBytes S)) =
      some (decodedObj S) := by
    rw [← encodeBinaryRouteShare_eq]
    exact decodeBinary_encodeBinary_obj S hS hcnt
  rw [hdec]
  exact normalise_decoded S hS

/-- Per-coordinate closeness of the quantised position. -/
theorem quantPos_closePos (p : Position) :
    |(quantPos p).lat - p.lat| ≤ 1 / 100000 ∧
    |(quantPos p).lng - p.lng| ≤ 1 / 100000 := by
  have h1 := quantPos_close p.lat
  have h2 := quantPos_close p.lng
  constructor
  · exact le_trans h1 (by norm_num)
  · exact le_trans h2 (by norm_num)

theorem forall2_quant (cps : List Position) :
    List.Forall₂ (fun p' p => |p'.lat - p.lat| ≤ 1 / 100000 ∧
      |p'.lng - p.lng| ≤ 1 / 100000) (cps.map quantPos) cps := by
  induction cps with
  | nil => exact List.Forall₂.nil
  | cons p l ih => exact List.Forall₂.cons (quantPos_closePos p) ih

end BinCodec

section C1Section

open CadetMap.RouteUtils BinCodec

/-- C1 (amended): for every valid version-1 snapshot with fewer than 65536
checkpoints, decoding the encoded share succeeds and returns a snapshot
whose connectVia, start/end presence flags, checkpoint count and order
equal the input's exactly, and whose coordinates agree with the input's to
within `1e-5` degrees per coordinate. -/
theorem routeShare_roundtrip (S : RouteSnapshot) (hv : S.version = 1)
    (hS : ValidSnapshot S) (hcnt : S.checkpoints.length < 65536) :
    ∃ T, decodeRouteShare (encodeRouteShare (snapshotToJVal S)) = some T ∧
      T.connectVia = S.connectVia ∧
      T.start.isSome = S.start.isSome ∧
      T.endPos.isSome = S.endPos.isSome ∧
      T.checkpoints.length = S.checkpoints.length ∧
      List.Forall₂ (fun p' p => |p'.lat - p.lat| ≤ 1 / 100000 ∧
        |p'.lng - p.lng| ≤ 1 / 100000) T.checkpoints S.checkpoints ∧
      (∀ p p', S.start = some p → T.start = some p' →
        |p'.lat - p.lat| ≤ 1 / 100000 ∧ |p'.lng - p.lng| ≤ 1 / 100000) ∧
      (∀ p p', S.endPos = some p → T.endPos = some p' →
        |p'.lat - p.lat| ≤ 1 / 100000 ∧ |p'.lng - p.lng| ≤ 1 / 100000) := by
  refine ⟨quantSnapshot S, decodeRouteShare_encodeRouteShare S hv hS hcnt,
    rfl, ?_, ?_, ?_, ?_, ?_, ?_⟩
  · show (S.start.map quantPos).isSome = S.start.isSome
    rcases S.start <;> rfl
  · show (S.endPos.map quantPos).isSome = S.endPos.isSome
    rcases S.endPos <;> rfl
  · show (S.checkpoints.map quantPos).length = S.checkpoints.length
    rw [List.length_map]
  · exact forall2_quant S.checkpoints
  · intro p p' hp hp'
    show _ ∧ _
    have : S.start.map quantPos = some p' := hp'
    rw [hp] at this
    rw [show (some p).map quantPos = some (quantPos p) from rfl] at this
    injection this with this
    rw [← this]
    exact quantPos_closePos p
  · intro p p' hp hp'
    have : S.endPos.map quantPos = some p' := hp'
    rw [hp] at this
    rw [show (some p).map quantPos = some (quantPos p) from rfl] at this
    injection this with this
    rw [← this]
    exact quantPos_closePos p

/-- Witness for C1's theorem at the one-checkpoint snapshot with absent
start and end. -/
theorem routeShare_roundtrip_witness :
    (⟨1, .direct, none, none, [⟨0, 0⟩]⟩ : RouteSnapshot).version = 1 ∧
    ValidSnapshot (⟨1, .direct, none, none, [⟨0, 0⟩]⟩ : RouteSnapshot) ∧
    (⟨1, .direct, none, none, [⟨0, 0⟩]⟩ : RouteSnapshot).checkpoints.length < 65536 ∧
    ∃ T, decodeRouteShare (encodeRouteShare (snapshotToJVal
        ⟨1, .direct, none, none, [⟨0, 0⟩]⟩)) = some T ∧
      T.connectVia = ConnectVia.direct ∧
      T.start.isSome = (none : Option Position).isSome ∧
      T.endPos.isSome = (none : Option Position).isSome ∧
      T.checkpoints.length = ([(⟨0, 0⟩ : Position)]).length ∧
      List.Forall₂ (fun p' p : Position => |p'.lat - p.lat| ≤ 1 / 100000 ∧
        |p'.lng - p.lng| ≤ 1 / 100000) T.checkpoints [(⟨0, 0⟩ : Position)] ∧
      (∀ p p' : Position, (none : Option Position) = some p → T.start = some p' →
        |p'.lat - p.lat| ≤ 1 / 100000 ∧ |p'.lng - p.lng| ≤ 1 / 100000) ∧
      (∀ p p' : Position, (none : Option Position) = some p → T.endPos = some p' →
        |p'.lat - p.lat| ≤ 1 / 100000 ∧ |p'.lng - p.lng| ≤ 1 / 100000) := by
  have hvp : ValidPos ⟨0, 0⟩ := ⟨by norm_num, by norm_num, by norm_num, by norm_num,
    by with_unfolding_all rfl, by with_unfolding_all rfl⟩
  have hS : ValidSnapshot ⟨1, .direct, none, none, [⟨0, 0⟩]⟩ := by
    refine ⟨fun p h => by simp at h, fun p h => by simp at h, fun p hp => ?_⟩
    simp only [List.mem_singleton] at hp
    rw [hp]
    exact hvp
  exact ⟨rfl, hS, by norm_num,
    routeShare_roundtrip ⟨1, .direct, none, none, [⟨0, 0⟩]⟩ rfl hS (by norm_num)⟩

section C1Counterexample

open CadetMap.RouteUtils CadetMap.Base64 BinCodec

/-- `atob` on a pure index code whose length is 2 or 3 modulo 4 (no `=`
stripping happens). -/
theorem base64Decode_of_idx_nodrop (idx : List ℕ) (hi : ∀ i ∈ idx, i < 64)
    (hm0 : idx.length % 4 ≠ 0) (hm1 : idx.length % 4 ≠ 1) :
    base64Decode (idx.map charOf) = some (decodeGroups idx) := by
  have hfil : (idx.map charOf).filter (fun c => ¬ asciiWs c) = idx.map charOf := by
    rw [List.filter_eq_self]
    intro c hc
    rw [List.mem_map] at hc
    obtain ⟨i, hmem, hcs⟩ := hc
    simp [← hcs, (B64.charOf_spec i (hi i hmem)).2.2.1]
  rw [base64Decode]
  simp only [hfil, List.length_map, if_neg hm0, if_neg hm1,
    B64.mapM_indexOf_map_charOf idx hi]

/-- `JSON.parse` rejects a binary string starting with the control byte 1. -/
theorem jsonParse_cons_one (rest : List ℕ) : Json.jsonParse (1 :: rest) = none := by
  have hskip : Json.skipWs (1 :: rest) = 1 :: rest := by
    rw [Json.skipWs, List.dropWhile_cons]
    norm_num [Json.jsonWs]
  have hpv : ∀ m, Json.parseVal (m + 1) (1 :: rest) = none := by
    intro m
    rw [Json.parseVal, hskip]
    norm_num [Json.isDigitCode]
  rw [Json.jsonParse, show (1 :: rest).length + 1 = rest.length + 1 + 1 from rfl,
    hpv]

/-- The 6-bit indices of an all-zero byte block are all zero. -/
theorem encIdx_replicate_zero : ∀ k : ℕ,
    B64.encIdx (List.replicate (3 * k) (0 : ℕ)) = List.replicate (4 * k) 0 := by
  intro k
  induction k with
  | zero => rfl
  | succ n ih =>
    have h3 : List.replicate (3 * (n + 1)) (0 : ℕ) =
        0 :: 0 :: 0 :: List.replicate (3 * n) 0 := by
      rw [show 3 * (n + 1) = 3 * n + 1 + 1 + 1 from by ring, List.replicate_succ,
        List.replicate_succ, List.replicate_succ]
    have h4 : List.replicate (4 * (n + 1)) (0 : ℕ) =
        0 :: 0 :: 0 :: 0 :: List.replicate (4 * n) 0 := by
      rw [show 4 * (n + 1) = 4 * n + 1 + 1 + 1 + 1 from by ring, List.replicate_succ,
        List.replicate_succ, List.replicate_succ, List.replicate_succ]
    rw [h3, h4, B64.encIdx, ih]

theorem flatten_replicate_zero : ∀ k : ℕ,
    (List.replicate k (List.replicate 8 (0 : ℕ))).flatten = List.replicate (8 * k) 0 := by
  intro k
  induction k with
  | zero => rfl
  | succ n ih =>
    rw [List.replicate_succ, List.flatten_cons, ih,
      show 8 * (n + 1) = 8 + 8 * n from by ring, List.replicate_add]

/-- Evaluation of `decodeRouteShare` when the binary path fails and the
legacy payload is rejected by the JSON parser. -/
theorem decodeRouteShare_legacy_eval (code : List Char) (b : List ℕ)
    (hws2 : ∀ c ∈ code, jsWsChar c = false) (hne : code ≠ [])
    (hbin2 : decodeBinaryRouteShare code = none)
    (hb64 : Base64.base64Decode code = some b)
    (hj : Json.jsonParse b = none) :
    decodeRouteShare code = none := by
  rw [decodeRouteShare, jsTrim_eq_self hws2, if_neg hne, hbin2, hb64]
  show (match Json.jsonParse b with
    | none => none
    | some parsed => normaliseRouteShareSnapshot parsed) = none
  rw [hj]

/-- C1 counterexample: a valid version-1 snapshot with exactly 65536
checkpoints encodes with a wrapped 16-bit count of 0; the binary decoder
rejects the length and the legacy JSON path rejects the binary payload, so
the decode returns an absent result and no property of the snapshot is
preserved. -/
theorem routeShare_wraparound :
    (⟨1, .direct, none, none, List.replicate 65536 (⟨0, 0⟩ : Position)⟩
      : RouteSnapshot).version = 1 ∧
    ValidSnapshot (⟨1, .direct, none, none, List.replicate 65536 ⟨0, 0⟩⟩
      : RouteSnapshot) ∧
    (⟨1, .direct, none, none, List.replicate 65536 (⟨0, 0⟩ : Position)⟩
      : RouteSnapshot).checkpoints.length = 65536 ∧
    decodeRouteShare (encodeRouteShare (snapshotToJVal
      ⟨1, .direct, none, none, List.replicate 65536 ⟨0, 0⟩⟩)) = none := by
  have hvp : ValidPos ⟨0, 0⟩ := ⟨by norm_num, by norm_num, by norm_num, by norm_num,
    by with_unfolding_all rfl, by with_unfolding_all rfl⟩
  have hS : ValidSnapshot ⟨1, .direct, none, none, List.replicate 65536 ⟨0, 0⟩⟩ := by
    refine ⟨fun p h => by simp at h, fun p h => by simp at h, fun p hp => ?_⟩
    rw [List.eq_of_mem_replicate hp]
    exact hvp
  refine ⟨rfl, hS, ?_, ?_⟩
  · show (List.replicate 65536 (⟨0, 0⟩ : Position)).length = 65536
    rw [List.length_replicate]
  have henc : encodeRouteShare (snapshotToJVal
      ⟨1, .direct, none, none, List.replicate 65536 ⟨0, 0⟩⟩) =
      Base64.toBase64Url (encBytes ⟨1, .direct, none, none, List.replicate 65536 ⟨0, 0⟩⟩) := by
    rw [encodeRouteShare, normalise_snapshotToJVal _ rfl hS]
    rfl
  have hwc0 : writeCoordinate ⟨0, 0⟩ = List.replicate 8 0 := by
    with_unfolding_all rfl
  have hu16 : uint16BEBytes 65536 = [0, 0] := by norm_num [uint16BEBytes]
  have hbytes : encBytes ⟨1, .direct, none, none, List.replicate 65536 ⟨0, 0⟩⟩ =
      [1, 0, 0, 0, 0] ++ List.replicate 524288 0 := by
    rw [encBytes]
    simp only [show (⟨1, .direct, none, none, List.replicate 65536 ⟨0, 0⟩⟩
        : RouteSnapshot).checkpoints = List.replicate 65536 ⟨0, 0⟩ from rfl,
      List.length_replicate, List.map_replicate, hwc0, hu16,
      flatten_replicate_zero 65536]
    norm_num
    decide
  have hlt : ∀ x ∈ [1, 0, 0, 0, 0] ++ List.replicate 524288 (0 : ℕ), x < 256 := by
    apply append_lt
    · intro x hx
      simp only [List.mem_cons, List.not_mem_nil, or_false] at hx
      rcases hx with h | h | h | h | h <;> omega
    · intro x hx
      rw [List.eq_of_mem_replicate hx]
      norm_num
  have hbin : decodeBinaryRouteShare (Base64.toBase64Url
      ([1, 0, 0, 0, 0] ++ List.replicate 524288 0)) = none := by
    rw [decodeBinaryRouteShare, B64.fromBase64Url_toBase64Url _ hlt]
    simp only [List.cons_append, List.nil_append, List.length_replicate]
    norm_num
  have hcons : ∀ n : ℕ, (0 : ℕ) :: List.replicate n 0 = List.replicate (n + 1) 0 :=
    fun n => (List.replicate_succ 0 n).symm
  have hsnoc : ∀ n : ℕ, List.replicate n (0 : ℕ) ++ [0] = List.replicate (n + 1) 0 :=
    fun n => (List.replicate_succ' n 0).symm
  have hsplitb : [1, 0, 0, 0, 0] ++ List.replicate 524288 (0 : ℕ) =
      ([1, 0, 0] ++ List.replicate 524289 0) ++ [0] := by
    have e1 : (0 : ℕ) :: 0 :: List.replicate 524288 (0 : ℕ) =
        List.replicate 524290 0 := by
      rw [hcons, hcons]
    have e2 : List.replicate 524289 (0 : ℕ) ++ [0] = List.replicate 524290 0 := by
      rw [hsnoc]
    simp only [List.cons_append, List.nil_append, List.append_assoc, e2]
    rw [← e1]
  have hshape : B64.encIdx ([1, 0, 0, 0, 0] ++ List.replicate 524288 (0 : ℕ)) =
      [0, 16, 0, 0] ++ (List.replicate 699052 0 ++ [0, 0]) := by
    rw [hsplitb, B64.encIdx_append3 174764 _ _ (by
      rw [List.length_append, List.length_replicate]
      norm_num)]
    rw [B64.encIdx_append3 1 [1, 0, 0] _ (by norm_num)]
    rw [show (524289 : ℕ) = 3 * 174763 from by norm_num, encIdx_replicate_zero 174763]
    rw [show B64.encIdx [1, 0, 0] = [0, 16, 0, 0] from rfl,
      show B64.encIdx [0] = [0, 0] from rfl,
      show (4 * 174763 : ℕ) = 699052 from by norm_num]
    rw [List.append_assoc]
  have hmem : ∀ i ∈ B64.encIdx ([1, 0, 0, 0, 0] ++ List.replicate 524288 (0 : ℕ)),
      i = 0 ∨ i = 16 := by
    intro i hi
    rw [hshape] at hi
    simp only [List.mem_append, List.mem_cons, List.not_mem_nil, or_false,
      List.mem_replicate] at hi
    rcases hi with (h | h | h | h) | (⟨-, h⟩ | h | h) <;> omega
  have hcode : Base64.toBase64Url ([1, 0, 0, 0, 0] ++ List.replicate 524288 0) =
      (B64.encIdx ([1, 0, 0, 0, 0] ++ List.replicate 524288 0)).map charOf := by
    rw [B64.toBase64Url_eq_map _ hlt]
    apply List.map_congr_left
    intro i hi
    rcases hmem i hi with rfl | rfl <;> decide
  have hlen : (B64.encIdx ([1, 0, 0, 0, 0] ++ List.replicate 524288 (0 : ℕ))).length
      = 699058 := by
    rw [hshape, List.length_append, List.length_append, List.length_replicate]
    norm_num
  have hdecb : base64Decode ((B64.encIdx ([1, 0, 0, 0, 0] ++
      List.replicate 524288 0)).map charOf) =
      some ([1, 0, 0, 0, 0] ++ List.replicate 524288 0) := by
    rw [base64Decode_of_idx_nodrop _
      (B64.encIdx_lt _ _ le_rfl hlt) (by rw [hlen]; norm_num) (by rw [hlen]; norm_num),
      B64.decodeGroups_encIdx_self _ hlt]
  have hws := toBase64Url_chars_not_ws _ hlt
  have hnn := toBase64Url_ne_nil ([1, 0, 0, 0, 0] ++ List.replicate 524288 0) hlt
    (by rw [show [1, 0, 0, 0, 0] ++ List.replicate 524288 (0 : ℕ) =
          1 :: ([0, 0, 0, 0] ++ List.replicate 524288 0) from rfl]
        exact List.cons_ne_nil _ _)
  have hjson : Json.jsonParse ([1, 0, 0, 0, 0] ++ List.replicate 524288 0) = none := by
    simp only [List.cons_append, List.nil_append]
    exact jsonParse_cons_one _
  rw [henc, hbytes]
  exact decodeRouteShare_legacy_eval _ _ hws hnn hbin (by rw [hcode]; exact hdecb) hjson

end C1Counterexample

end C1Section

end CadetMap.Claims
